import Mathlib

/-!
# Verification of the crypto-price-tracker ingestion pipeline

Shallow embedding of the second (current) program version contained in
`src/tracker.go` (the `AverageDays = 14` tracker) and the first block of
`src/report.go` (the 17-column `AddData`).  Calendar dates are embedded at day
granularity as integers (days since the Unix epoch); the Go
`time.Time.AddDate(0, 0, -1)` backward walk is then `d - 1`, and the
`Format("2006-01-02")` row key is modelled by the injective constructor
`Value.vDate`.  Floating-point prices are embedded as rationals; the claims at
stake involve only exact arithmetic on small literals.  External I/O (the Bank
of Israel HTTP endpoint and the Priority accounting POST) is modelled by
oracle functions passed explicitly: the bank oracle returns `none` for a nil
response or a non-200 status and `some v` for a 200 response whose parsed XML
carries `OBS_VALUE = v` (an unparsable 200 body yields `some 0`, because
`xml.Unmarshal`'s error is discarded and the zero value of the struct is
returned).
-/

/-- `AverageDays` from tracker.go: the moving-average window size. -/
def AverageDays : ℕ := 14

/-- `Version` from tracker.go, written into the last report column. -/
def trackerVersion : String := "1.0.1"

/-- `HistoricPriceData` from tracker.go: one calendar day of market data.
`date` is day-granular (days since epoch); `openPrice` renders the Go field
`open`, which is a Lean keyword. -/
structure HistoricPriceData where
  date : ℤ
  openPrice : ℚ
  high : ℚ
  low : ℚ
  close : ℚ
  volume : ℚ
  marketCap : ℤ
deriving DecidableEq, Repr

/-- `FullHistoricPriceData` from tracker.go: a price point enriched with the
moving average and the resolved Shekel/USD rate. -/
structure FullHistoricPriceData where
  priceData : HistoricPriceData
  average : ℚ
  shekelUsdRatio : ℚ
deriving DecidableEq, Repr

/-- What one bank query observes, as far as `getFromIsraelBank` inspects it:
`unavailable` — a nil response or a non-200 status (the lookup walks back a
day); `readFailure msg` — a 200 response whose body read
(`ioutil.ReadAll`) fails, making the function return `0, err` (an ordinary
error); `rate v` — a 200 response whose body reads and parses to
`OBS_VALUE = v` (an unparsable body yields `v = 0`, because
`xml.Unmarshal`'s error is discarded and the struct's zero value is used). -/
inductive BankResponse where
  | unavailable
  | readFailure (msg : String)
  | rate (v : ℚ)
deriving DecidableEq, Repr

/-- Outcome of `getFromIsraelBank`: `ok` is a parsed rate from a 200
response; `err` is the ordinary error returned when `ioutil.ReadAll` fails
on a 200 response (the only live `return 0, err` path — the other checked
`err` is the always-nil result of parsing a constant URL, and `client.Do`'s
error is discarded); `panic` models the Go
`panic("Cannot fetch Shekel USD values from BankOfIsrael")` raised when the
retry budget is exhausted. -/
inductive RateResult where
  | ok (r : ℚ)
  | err (msg : String)
  | panic
deriving DecidableEq, Repr

/-- The bank oracle: the response observed for a given date's query. -/
def BankOracle : Type := ℤ → BankResponse

/-- `getFromIsraelBank` from tracker.go.  Checks the retry budget first
(`retries < 1` panics), queries the bank for exactly the requested date, and
on an unavailable response (nil or non-200) recurses on the previous
calendar day with a decremented budget.  On a 200 response, a body-read
failure returns an ordinary error; otherwise the parsed value is returned
as-is — zero included.  The second component records the dates queried, in
order. -/
def getFromIsraelBank (oracle : BankOracle) : ℤ → ℕ → RateResult × List ℤ
  | _, 0 => (.panic, [])
  | date, n + 1 =>
    match oracle date with
    | .unavailable =>
      let rec' := getFromIsraelBank oracle (date - 1) n
      (rec'.1, date :: rec'.2)
    | .readFailure msg => (.err msg, [date])
    | .rate v => (.ok v, [date])

/-- The in-memory cache `shekelUsdRatioCache` from tracker.go, keyed by the
formatted (day-granular) date. -/
abbrev Cache : Type := List (ℤ × ℚ)

/-- Go map lookup on the cache model. -/
def cacheLookup : Cache → ℤ → Option ℚ
  | [], _ => none
  | (k, v) :: rest, d => if k = d then some v else cacheLookup rest d

/-- `getShekelConversionRatio` from tracker.go: on a cache hit returns the
cached value (no bank queries); on a miss calls `getFromIsraelBank` with a
budget of 20 and stores a successful result under the originally requested
date; an ordinary error from the bank call is surfaced without caching.
Returns (result, cache after the call, bank dates queried). -/
def getShekelConversionRatio (oracle : BankOracle) (cache : Cache) (date : ℤ) :
    RateResult × Cache × List ℤ :=
  match cacheLookup cache date with
  | some r => (.ok r, cache, [])
  | none =>
    match getFromIsraelBank oracle date 20 with
    | (.ok r, probes) => (.ok r, (date, r) :: cache, probes)
    | (.err msg, probes) => (.err msg, cache, probes)
    | (.panic, probes) => (.panic, cache, probes)

/-- The dates `getFromIsraelBank` queries when the first `k` days (starting at
`date`, walking backward) are unavailable: `date, date - 1, …, date - k`. -/
def probeDates (date : ℤ) : ℕ → List ℤ
  | 0 => [date]
  | k + 1 => date :: probeDates (date - 1) k

theorem getFromIsraelBank_panic_iff (oracle : BankOracle) :
    ∀ (n : ℕ) (date : ℤ),
      (getFromIsraelBank oracle date n).1 = .panic ↔
        ∀ k : ℕ, k < n → oracle (date - k) = .unavailable := by
  intro n
  induction n with
  | zero =>
    intro date
    simp [getFromIsraelBank]
  | succ m ih =>
    intro date
    rcases hpo : oracle date with _ | msg | v
    · have hstep : (getFromIsraelBank oracle date (m + 1)).1
          = (getFromIsraelBank oracle (date - 1) m).1 := by
        simp [getFromIsraelBank, hpo]
      rw [hstep, ih (date - 1)]
      constructor
      · intro h k hk
        rcases k with _ | k
        · simpa using hpo
        · have := h k (by omega)
          have harith : date - ((k : ℕ) + 1 : ℕ) = date - 1 - (k : ℤ) := by
            push_cast
            ring
          rwa [harith]
      · intro h k hk
        have := h (k + 1) (by omega)
        have harith : date - ((k : ℕ) + 1 : ℕ) = date - 1 - (k : ℤ) := by
          push_cast
          ring
        rwa [harith] at this
    · constructor
      · intro h
        simp [getFromIsraelBank, hpo] at h
      · intro h
        have := h 0 (by omega)
        simp [hpo] at this
    · constructor
      · intro h
        simp [getFromIsraelBank, hpo] at h
      · intro h
        have := h 0 (by omega)
        simp [hpo] at this

theorem getFromIsraelBank_ok_of_first_hit (oracle : BankOracle) :
    ∀ (k n : ℕ) (date : ℤ) (v : ℚ), k < n →
      (∀ j : ℕ, j < k → oracle (date - j) = .unavailable) →
      oracle (date - k) = .rate v →
      getFromIsraelBank oracle date n = (.ok v, probeDates date k) := by
  intro k
  induction k with
  | zero =>
    intro n date v hn _ hhit
    rcases n with _ | m
    · omega
    · have : oracle date = .rate v := by simpa using hhit
      simp [getFromIsraelBank, this, probeDates]
  | succ j ih =>
    intro n date v hn hmiss hhit
    rcases n with _ | m
    · omega
    · have h0 : oracle date = .unavailable := by simpa using hmiss 0 (by omega)
      have hmiss' : ∀ i : ℕ, i < j → oracle (date - 1 - i) = .unavailable := by
        intro i hi
        have := hmiss (i + 1) (by omega)
        have harith : date - ((i : ℕ) + 1 : ℕ) = date - 1 - (i : ℤ) := by
          push_cast
          ring
        rwa [harith] at this
      have hhit' : oracle (date - 1 - j) = .rate v := by
        have harith : date - ((j : ℕ) + 1 : ℕ) = date - 1 - (j : ℤ) := by
          push_cast
          ring
        rwa [harith] at hhit
      have := ih m (date - 1) v (by omega) hmiss' hhit'
      simp [getFromIsraelBank, h0, this, probeDates]

/-- Gregorian civil date `(year, month, day)` from days since 1970-01-01
(Howard Hinnant's `civil_from_days`), matching Go's `time.Time`
`Year`/`Month`/`Day` accessors at day granularity in UTC. -/
def civilFromDays (days : ℤ) : ℤ × ℤ × ℤ :=
  let z := days + 719468
  let era := Int.fdiv z 146097
  let doe := z - era * 146097
  let yoe := Int.fdiv (doe - Int.fdiv doe 1460 + Int.fdiv doe 36524 - Int.fdiv doe 146096) 365
  let y := yoe + era * 400
  let doy := doe - (365 * yoe + Int.fdiv yoe 4 - Int.fdiv yoe 100)
  let mp := Int.fdiv (5 * doy + 2) 153
  let d := doy - Int.fdiv (153 * mp + 2) 5 + 1
  let m := mp + (if mp < 10 then 3 else -9)
  (if m ≤ 2 then y + 1 else y, m, d)

/-- Go `date.Year()` on a day-granular date. -/
def yearOf (d : ℤ) : ℤ := (civilFromDays d).1

/-- Go `int(date.Month())` on a day-granular date. -/
def monthOf (d : ℤ) : ℤ := (civilFromDays d).2.1

/-- Go `date.Day()` on a day-granular date. -/
def dayOf (d : ℤ) : ℤ := (civilFromDays d).2.2

/-- `dateIntToString` from report.go: render an integer, left-padding a single
digit with `0`. -/
def dateIntToString (value : ℤ) : String :=
  let stringValue := toString value
  if stringValue.length = 1 then "0" ++ stringValue else stringValue

/-- A spreadsheet cell value.  Go writes heterogeneous values through
`cell.SetValue`; the first column holds `date.Format("2006-01-02")`, modelled
by the injective constructor `vDate` (distinct day-granular dates format to
distinct strings, and no formatted date collides with header text or other
strings), `vDateP` models `date.Format("02/01/06")`. -/
inductive Value where
  | vStr (s : String)
  | vDate (d : ℤ)
  | vDateP (d : ℤ)
  | vNum (q : ℚ)
  | vInt (z : ℤ)
deriving DecidableEq, Repr

/-- A spreadsheet row: the list of its cell values, first column first. -/
abbrev Row : Type := List Value

/-- The `headers` table from report.go (first block): 17 column names.  The
`Wide` layout flags affect only column widths and are not modelled. -/
def headers : List String :=
  ["Date", "Open", "High", "Low", "Close", "Volume", "Market Cap",
   "Daily Average", toString AverageDays ++ " Days Average",
   "Year", "Month", "Day", "Average USD", "Dollar rate", "Date",
   "Average ILS", "Importer version"]

/-- The header row `AddCurrency` writes into a freshly created sheet. -/
def headerRow : Row := headers.map Value.vStr

/-- The row built by `CurrencySheet.AddData` (report.go, first block), cell by
cell in source order.  Note the source quirk: the cell under the `Year` header
receives `date.Day()`, the one under `Day` receives `date.Year()`. -/
def addDataRow (data : FullHistoricPriceData) : Row :=
  let dailyAverage := (data.priceData.openPrice + data.priceData.close) / 2
  [Value.vDate data.priceData.date,
   Value.vNum data.priceData.openPrice,
   Value.vNum data.priceData.high,
   Value.vNum data.priceData.low,
   Value.vNum data.priceData.close,
   Value.vNum data.priceData.volume,
   Value.vInt data.priceData.marketCap,
   Value.vNum dailyAverage,
   Value.vNum data.average,
   Value.vStr (dateIntToString (dayOf data.priceData.date)),
   Value.vStr (dateIntToString (monthOf data.priceData.date)),
   Value.vStr (dateIntToString (yearOf data.priceData.date)),
   Value.vNum dailyAverage,
   Value.vNum data.shekelUsdRatio,
   Value.vDateP data.priceData.date,
   Value.vNum (data.shekelUsdRatio * dailyAverage),
   Value.vStr trackerVersion]

/-- `CurrencySheet.AddData` from report.go: appends the built row to the sheet
and returns `nil` — the function has no failure path, so the result is always
`.ok`; the `error` result type mirrors the Go signature. -/
def AddData (rows : List Row) (data : FullHistoricPriceData) :
    Except String (List Row) :=
  .ok (rows ++ [addDataRow data])

/-- `Report.AddCurrency` from report.go: an absent sheet (`none`) is created
with the header row; an existing sheet is returned as-is. -/
def AddCurrency (sheet : Option (List Row)) : List Row :=
  match sheet with
  | none => [headerRow]
  | some rows => rows

/-- Modelled from the spec: the `movingaverage` collaborator
(`github.com/RobinUS2/golang-moving-average`, not part of this repository) is
"a fixed-capacity trailing buffer of the last `windowSize` closing prices"
(§4.3).  The buffer is the list of the most recent values, oldest first. -/
def maAdd (window : ℕ) (buffer : List ℚ) (v : ℚ) : List ℚ :=
  let vs := buffer ++ [v]
  vs.drop (vs.length - window)

/-- Modelled from the spec: `ma.Avg()` is the arithmetic mean of the buffer's
current contents (never consulted on an empty buffer by the tracker). -/
def maAvg (buffer : List ℚ) : ℚ := buffer.sum / buffer.length

/-- How far `performImportToPriority` inspects a non-201 response body:
`noForm` — the decoded body's `FORM` field is not a JSON object, so the
whole body is printed; `formWithErrors t` — `FORM` is an object and its
`InterfaceErrors` field is an object, whose `text` is printed;
`formWithoutErrors` — `FORM` is an object but `InterfaceErrors` is not: the
unchecked type assertion
`m["InterfaceErrors"].(map[string]interface{})` panics at runtime. -/
inductive PriorityBody where
  | noForm
  | formWithErrors (text : String)
  | formWithoutErrors
deriving DecidableEq, Repr

/-- Outcome of the Priority accounting POST, as seen by
`performImportToPriority`: `transportError` models `client.Do` returning a
non-nil error, `status c body` a response with HTTP status `c` whose decoded
body has shape `body` (only inspected when `c` is not 201). -/
inductive PriorityResult where
  | transportError
  | status (code : ℕ) (body : PriorityBody)
deriving DecidableEq, Repr

/-- The Priority oracle: response to a POST of `{EXCHANGE, CURDATE}`. -/
def PriorityOracle : Type := ℚ → ℤ → PriorityResult

/-- `performImportToPriority` from tracker.go, by observable effect:
a transport error hits `log.Fatal` (process termination); a 201 logs
success; any other status logs the body's error text — unless the decoded
`FORM` is an object without an `InterfaceErrors` object, in which case the
unchecked type assertion in the logging branch panics. -/
inductive ImportOutcome where
  | fatalTransport
  | success
  | loggedError
  | panicked
deriving DecidableEq, Repr

/-- `performImportToPriority` from tracker.go (see `ImportOutcome`). -/
def performImportToPriority (prio : PriorityOracle) (exchangeRate : ℚ)
    (currencyDate : ℤ) : ImportOutcome :=
  match prio exchangeRate currencyDate with
  | .transportError => .fatalTransport
  | .status c body =>
    if c = 201 then .success
    else
      match body with
      | .noForm => .loggedError
      | .formWithErrors _ => .loggedError
      | .formWithoutErrors => .panicked

/-- Result of a pipeline stage, carrying the persistent state (report rows,
cache) as it stands when the stage finishes or aborts: `ok` is normal return,
`err` a returned Go `error`, `panicked` the Go `panic` (rate-retry
exhaustion), `fatal` a `log.Fatal` (Priority transport error). -/
inductive PipeResult (σ : Type) where
  | ok (s : σ)
  | err (msg : String) (s : σ)
  | panicked (s : σ)
  | fatal (s : σ)
deriving DecidableEq

/-- The state carried by a `PipeResult`, whichever way the stage ended. -/
def PipeResult.state {σ : Type} : PipeResult σ → σ
  | .ok s => s
  | .err _ s => s
  | .panicked s => s
  | .fatal s => s

/-- Apply a function to the carried state, preserving how the stage ended. -/
def PipeResult.mapState {σ τ : Type} (f : σ → τ) : PipeResult σ → PipeResult τ
  | .ok s => .ok (f s)
  | .err m s => .err m (f s)
  | .panicked s => .panicked (f s)
  | .fatal s => .fatal (f s)

/-- How a pipeline stage ended, stripped of its state. -/
inductive Kind where
  | ok
  | err
  | panicked
  | fatal
deriving DecidableEq, Repr

/-- The `Kind` of a `PipeResult`. -/
def PipeResult.kind {σ : Type} : PipeResult σ → Kind
  | .ok _ => .ok
  | .err _ _ => .err
  | .panicked _ => .panicked
  | .fatal _ => .fatal

theorem PipeResult.state_mapState {σ τ : Type} (f : σ → τ) (p : PipeResult σ) :
    (p.mapState f).state = f p.state := by
  cases p <;> rfl

theorem PipeResult.kind_mapState {σ τ : Type} (f : σ → τ) (p : PipeResult σ) :
    (p.mapState f).kind = p.kind := by
  cases p <;> rfl

/-- The exchange rate `writePriceData` pushes to Priority for a new record:
`priceData.shekelUsdRatio * dailyAverage` with
`dailyAverage = (open + close) / 2`. -/
def priorityPayload (r : FullHistoricPriceData) : ℚ :=
  r.shekelUsdRatio * ((r.priceData.openPrice + r.priceData.close) / 2)

/-- The duplicate-detection scan in `writePriceData`: does any existing row's
first-column value equal the formatted date? -/
def existsDate (rows : List Row) (d : ℤ) : Bool :=
  rows.any (fun row => row.head? == some (Value.vDate d))

/-- Output of the enrichment pass (the first loop of `writePriceData`):
the enriched batch in processing (oldest-to-newest) order, the cache after the
pass, and the trace of dates passed to `getShekelConversionRatio`, in call
order.  `panicked` is the rate-retry exhaustion unwinding the process. -/
inductive EnrichOut where
  | ok (full : List FullHistoricPriceData) (cache : Cache) (lookups : List ℤ)
  | errOut (msg : String) (cache : Cache) (lookups : List ℤ)
  | panicked (cache : Cache) (lookups : List ℤ)
deriving DecidableEq

/-- The loop-body append `fullPriceData = append(fullPriceData, ...)`, lifted
over the outcome of the rest of the pass: prepend this day's enriched record
(and its lookup-trace entry) to whatever the rest of the pass produced. -/
def EnrichOut.consOut (e : HistoricPriceData) (avg r : ℚ) : EnrichOut → EnrichOut
  | .ok full c ls => .ok (⟨e, avg, r⟩ :: full) c (e.date :: ls)
  | .errOut msg c ls => .errOut msg c (e.date :: ls)
  | .panicked c ls => .panicked c (e.date :: ls)

/-- The first loop of `writePriceData` (tracker.go lines 617-648), written as
recursion over the list it walks (`data` from index `len-1` down to `0`, i.e.
`data.reverse`).  Per day: resolve the conversion rate (any failure aborts the
whole pass before any merging), add the close to the ring buffer and bump the
valid-day counter only when `close > 0`, then report `ma.Avg()` when
`j > AverageDays` holds for the updated counter and the sentinel `0`
otherwise.  A rate-lookup error (`errOut`) or panic likewise aborts the whole
pass before any merging.  `ma`/`j` thread the buffer and counter, `w` the
window size. -/
def enrichGo (oracle : BankOracle) (w : ℕ) :
    List HistoricPriceData → List ℚ → ℕ → Cache → EnrichOut
  | [], _, _, cache => .ok [] cache []
  | e :: rest, ma, j, cache =>
    match getShekelConversionRatio oracle cache e.date with
    | (.panic, cache', _) => .panicked cache' [e.date]
    | (.err msg, cache', _) => .errOut msg cache' [e.date]
    | (.ok r, cache', _) =>
      let ma' := if e.close > 0 then maAdd w ma e.close else ma
      let j' := if e.close > 0 then j + 1 else j
      let avg := if j' > w then maAvg ma' else 0
      (enrichGo oracle w rest ma' j' cache').consOut e avg r

/-- State produced by the merge loop: the primary and delta sheets, plus
traces of what this run appended (rows and source records, in append order)
and which Priority calls were issued. -/
structure MergeRes where
  rows : List Row
  deltaRows : List Row
  appended : List Row
  deltaAppended : List Row
  appendedRecords : List FullHistoricPriceData
  forwarded : List (ℚ × ℤ)
deriving DecidableEq

/-- The second loop of `writePriceData` (tracker.go lines 650-699), written as
recursion over the list it walks (`fullPriceData` from index `len-1` down to
`0`, i.e. the enriched batch reversed).  Per record: scan the primary sheet's
first-column values; on a match skip; otherwise optionally POST to Priority
(transport error → `log.Fatal`; a non-201 response whose decoded `FORM` is an
object without an `InterfaceErrors` object → runtime panic in the logging
branch; any other response → continue), then append the row to the primary
sheet and then to the delta sheet, surfacing an `AddData` error (a dead
path: `AddData` always succeeds). -/
def mergeGo (prio : PriorityOracle) (enabled : Bool) :
    List FullHistoricPriceData → List Row → List Row → PipeResult MergeRes
  | [], rows, deltaRows => .ok ⟨rows, deltaRows, [], [], [], []⟩
  | r :: rest, rows, deltaRows =>
    if existsDate rows r.priceData.date then
      mergeGo prio enabled rest rows deltaRows
    else
      let fwd : List (ℚ × ℤ) :=
        if enabled then [(priorityPayload r, r.priceData.date)] else []
      if enabled ∧ performImportToPriority prio (priorityPayload r)
          r.priceData.date = .fatalTransport then
        .fatal ⟨rows, deltaRows, [], [], [], fwd⟩
      else if enabled ∧ performImportToPriority prio (priorityPayload r)
          r.priceData.date = .panicked then
        .panicked ⟨rows, deltaRows, [], [], [], fwd⟩
      else
        match AddData rows r with
        | .error e => .err e ⟨rows, deltaRows, [], [], [], fwd⟩
        | .ok rows' =>
          match AddData deltaRows r with
          | .error e => .err e ⟨rows', deltaRows, [addDataRow r], [], [r], fwd⟩
          | .ok deltaRows' =>
            (mergeGo prio enabled rest rows' deltaRows').mapState
              (fun res => ⟨res.rows, res.deltaRows,
                addDataRow r :: res.appended, addDataRow r :: res.deltaAppended,
                r :: res.appendedRecords, fwd ++ res.forwarded⟩)

/-- Everything `writePriceData` leaves behind: both sheets, the cache, and the
run's traces (appends, Priority calls, rate lookups). -/
structure WPDState where
  rows : List Row
  deltaRows : List Row
  cache : Cache
  appended : List Row
  deltaAppended : List Row
  appendedRecords : List FullHistoricPriceData
  forwarded : List (ℚ × ℤ)
  lookups : List ℤ
deriving DecidableEq

/-- Assemble the `writePriceData` result from the merge result plus the
enrichment pass's cache and lookup trace. -/
def mergeToWPD (c : Cache) (ls : List ℤ) (m : MergeRes) : WPDState :=
  ⟨m.rows, m.deltaRows, c, m.appended, m.deltaAppended, m.appendedRecords,
   m.forwarded, ls⟩

/-- `writePriceData` from tracker.go, parametric in the window size `w` (the
source fixes `w = AverageDays`): open/create both currency sheets, run the
enrichment pass over the fetched series (newest-first, so the pass walks
`data.reverse`), then run the merge loop over the enriched batch reversed —
which is the fetched series' own (newest-first) order. -/
def writePriceDataW (oracle : BankOracle) (prio : PriorityOracle)
    (enabled : Bool) (w : ℕ) (sheet deltaSheet : Option (List Row))
    (cache : Cache) (data : List HistoricPriceData) : PipeResult WPDState :=
  let rows0 := AddCurrency sheet
  let deltaRows0 := AddCurrency deltaSheet
  match enrichGo oracle w data.reverse [] 0 cache with
  | .panicked c ls => .panicked ⟨rows0, deltaRows0, c, [], [], [], [], ls⟩
  | .errOut msg c ls => .err msg ⟨rows0, deltaRows0, c, [], [], [], [], ls⟩
  | .ok full c ls =>
    (mergeGo prio enabled full.reverse rows0 deltaRows0).mapState (mergeToWPD c ls)

/-- `writePriceData` with the source's window size `AverageDays`. -/
def writePriceData (oracle : BankOracle) (prio : PriorityOracle)
    (enabled : Bool) (sheet deltaSheet : Option (List Row)) (cache : Cache)
    (data : List HistoricPriceData) : PipeResult WPDState :=
  writePriceDataW oracle prio enabled AverageDays sheet deltaSheet cache data

/-- `getPriceData` from tracker.go, restricted to its post-transport
validation: the HTTP fetch and JSON decoding are external I/O, modelled by the
already-parsed series `fetched`; the function then rejects a series shorter
than `AverageDays` with a data error. -/
def getPriceData (fetched : List HistoricPriceData) :
    Except String (List HistoricPriceData) :=
  if fetched.length < AverageDays then
    .error ("Not enough data points: " ++ toString fetched.length)
  else
    .ok fetched

/-- `processCurrency` from tracker.go: fetch (validate), then merge/write; a
fetch error returns before `writePriceData`, leaving both reports and the
cache untouched. -/
def processCurrency (oracle : BankOracle) (prio : PriorityOracle)
    (enabled : Bool) (sheet deltaSheet : Option (List Row)) (cache : Cache)
    (fetched : List HistoricPriceData) :
    PipeResult (Option (List Row) × Option (List Row) × Cache) :=
  match getPriceData fetched with
  | .error e => .err e (sheet, deltaSheet, cache)
  | .ok data =>
    (writePriceData oracle prio enabled sheet deltaSheet cache data).mapState
      (fun st => (some st.rows, some st.deltaRows, st.cache))

theorem existsDate_iff (rows : List Row) (d : ℤ) :
    existsDate rows d = true ↔ ∃ row ∈ rows, row.head? = some (Value.vDate d) := by
  simp [existsDate]

theorem mergeGo_cons_skip (prio : PriorityOracle) (enabled : Bool)
    (r : FullHistoricPriceData) (rest : List FullHistoricPriceData)
    (rows deltaRows : List Row) (h : existsDate rows r.priceData.date = true) :
    mergeGo prio enabled (r :: rest) rows deltaRows
      = mergeGo prio enabled rest rows deltaRows := by
  simp [mergeGo, h]

theorem mergeGo_cons_fatal (prio : PriorityOracle) (enabled : Bool)
    (r : FullHistoricPriceData) (rest : List FullHistoricPriceData)
    (rows deltaRows : List Row) (h : existsDate rows r.priceData.date = false)
    (hf : enabled ∧ performImportToPriority prio (priorityPayload r)
      r.priceData.date = .fatalTransport) :
    mergeGo prio enabled (r :: rest) rows deltaRows
      = .fatal ⟨rows, deltaRows, [], [], [],
          if enabled then [(priorityPayload r, r.priceData.date)] else []⟩ := by
  simp [mergeGo, h, hf]

theorem mergeGo_cons_panic (prio : PriorityOracle) (enabled : Bool)
    (r : FullHistoricPriceData) (rest : List FullHistoricPriceData)
    (rows deltaRows : List Row) (h : existsDate rows r.priceData.date = false)
    (hf : ¬(enabled ∧ performImportToPriority prio (priorityPayload r)
      r.priceData.date = .fatalTransport))
    (hp : enabled ∧ performImportToPriority prio (priorityPayload r)
      r.priceData.date = .panicked) :
    mergeGo prio enabled (r :: rest) rows deltaRows
      = .panicked ⟨rows, deltaRows, [], [], [],
          if enabled then [(priorityPayload r, r.priceData.date)] else []⟩ := by
  simp [mergeGo, h, hf, hp]

theorem mergeGo_cons_append (prio : PriorityOracle) (enabled : Bool)
    (r : FullHistoricPriceData) (rest : List FullHistoricPriceData)
    (rows deltaRows : List Row) (h : existsDate rows r.priceData.date = false)
    (hf : ¬(enabled ∧ performImportToPriority prio (priorityPayload r)
      r.priceData.date = .fatalTransport))
    (hp : ¬(enabled ∧ performImportToPriority prio (priorityPayload r)
      r.priceData.date = .panicked)) :
    mergeGo prio enabled (r :: rest) rows deltaRows
      = (mergeGo prio enabled rest (rows ++ [addDataRow r])
          (deltaRows ++ [addDataRow r])).mapState
          (fun res => ⟨res.rows, res.deltaRows,
            addDataRow r :: res.appended, addDataRow r :: res.deltaAppended,
            r :: res.appendedRecords,
            (if enabled then [(priorityPayload r, r.priceData.date)] else [])
              ++ res.forwarded⟩) := by
  simp [mergeGo, h, hf, hp, AddData]

theorem existsDate_append (a b : List Row) (d : ℤ) :
    existsDate (a ++ b) d = (existsDate a d || existsDate b d) := by
  simp [existsDate, List.any_append]

theorem mergeGo_rows_eq (prio : PriorityOracle) (enabled : Bool) :
    ∀ (l : List FullHistoricPriceData) (rows deltaRows : List Row),
      (mergeGo prio enabled l rows deltaRows).state.rows
        = rows ++ (mergeGo prio enabled l rows deltaRows).state.appended := by
  intro l
  induction l with
  | nil =>
    intro rows deltaRows
    simp [mergeGo, PipeResult.state]
  | cons r rest ih =>
    intro rows deltaRows
    by_cases hex : existsDate rows r.priceData.date = true
    · rw [mergeGo_cons_skip _ _ _ _ _ _ hex]
      exact ih rows deltaRows
    · have hex' : existsDate rows r.priceData.date = false := by
        simpa using hex
      by_cases hf : enabled ∧ performImportToPriority prio (priorityPayload r)
          r.priceData.date = .fatalTransport
      · rw [mergeGo_cons_fatal _ _ _ _ _ _ hex' hf]
        simp [PipeResult.state]
      · by_cases hp : enabled ∧ performImportToPriority prio (priorityPayload r)
            r.priceData.date = .panicked
        · rw [mergeGo_cons_panic _ _ _ _ _ _ hex' hf hp]
          simp [PipeResult.state]
        · rw [mergeGo_cons_append _ _ _ _ _ _ hex' hf hp]
          rw [PipeResult.state_mapState]
          have := ih (rows ++ [addDataRow r]) (deltaRows ++ [addDataRow r])
          simp only [this]
          simp

theorem mergeGo_deltaRows_eq (prio : PriorityOracle) (enabled : Bool) :
    ∀ (l : List FullHistoricPriceData) (rows deltaRows : List Row),
      (mergeGo prio enabled l rows deltaRows).state.deltaRows
        = deltaRows ++ (mergeGo prio enabled l rows deltaRows).state.deltaAppended := by
  intro l
  induction l with
  | nil =>
    intro rows deltaRows
    simp [mergeGo, PipeResult.state]
  | cons r rest ih =>
    intro rows deltaRows
    by_cases hex : existsDate rows r.priceData.date = true
    · rw [mergeGo_cons_skip _ _ _ _ _ _ hex]
      exact ih rows deltaRows
    · have hex' : existsDate rows r.priceData.date = false := by
        simpa using hex
      by_cases hf : enabled ∧ performImportToPriority prio (priorityPayload r)
          r.priceData.date = .fatalTransport
      · rw [mergeGo_cons_fatal _ _ _ _ _ _ hex' hf]
        simp [PipeResult.state]
      · by_cases hp : enabled ∧ performImportToPriority prio (priorityPayload r)
            r.priceData.date = .panicked
        · rw [mergeGo_cons_panic _ _ _ _ _ _ hex' hf hp]
          simp [PipeResult.state]
        · rw [mergeGo_cons_append _ _ _ _ _ _ hex' hf hp]
          rw [PipeResult.state_mapState]
          have := ih (rows ++ [addDataRow r]) (deltaRows ++ [addDataRow r])
          simp only [this]
          simp

theorem mergeGo_deltaAppended_eq (prio : PriorityOracle) (enabled : Bool) :
    ∀ (l : List FullHistoricPriceData) (rows deltaRows : List Row),
      (mergeGo prio enabled l rows deltaRows).state.deltaAppended
        = (mergeGo prio enabled l rows deltaRows).state.appended := by
  intro l
  induction l with
  | nil =>
    intro rows deltaRows
    simp [mergeGo, PipeResult.state]
  | cons r rest ih =>
    intro rows deltaRows
    by_cases hex : existsDate rows r.priceData.date = true
    · rw [mergeGo_cons_skip _ _ _ _ _ _ hex]
      exact ih rows deltaRows
    · have hex' : existsDate rows r.priceData.date = false := by
        simpa using hex
      by_cases hf : enabled ∧ performImportToPriority prio (priorityPayload r)
          r.priceData.date = .fatalTransport
      · rw [mergeGo_cons_fatal _ _ _ _ _ _ hex' hf]
        simp [PipeResult.state]
      · by_cases hp : enabled ∧ performImportToPriority prio (priorityPayload r)
            r.priceData.date = .panicked
        · rw [mergeGo_cons_panic _ _ _ _ _ _ hex' hf hp]
          simp [PipeResult.state]
        · rw [mergeGo_cons_append _ _ _ _ _ _ hex' hf hp]
          rw [PipeResult.state_mapState]
          have := ih (rows ++ [addDataRow r]) (deltaRows ++ [addDataRow r])
          simp only []
          simp [this]

theorem mergeGo_appended_eq (prio : PriorityOracle) (enabled : Bool) :
    ∀ (l : List FullHistoricPriceData) (rows deltaRows : List Row),
      (mergeGo prio enabled l rows deltaRows).state.appended
        = (mergeGo prio enabled l rows deltaRows).state.appendedRecords.map addDataRow := by
  intro l
  induction l with
  | nil =>
    intro rows deltaRows
    simp [mergeGo, PipeResult.state]
  | cons r rest ih =>
    intro rows deltaRows
    by_cases hex : existsDate rows r.priceData.date = true
    · rw [mergeGo_cons_skip _ _ _ _ _ _ hex]
      exact ih rows deltaRows
    · have hex' : existsDate rows r.priceData.date = false := by
        simpa using hex
      by_cases hf : enabled ∧ performImportToPriority prio (priorityPayload r)
          r.priceData.date = .fatalTransport
      · rw [mergeGo_cons_fatal _ _ _ _ _ _ hex' hf]
        simp [PipeResult.state]
      · by_cases hp : enabled ∧ performImportToPriority prio (priorityPayload r)
            r.priceData.date = .panicked
        · rw [mergeGo_cons_panic _ _ _ _ _ _ hex' hf hp]
          simp [PipeResult.state]
        · rw [mergeGo_cons_append _ _ _ _ _ _ hex' hf hp]
          rw [PipeResult.state_mapState]
          have := ih (rows ++ [addDataRow r]) (deltaRows ++ [addDataRow r])
          simp only []
          simp [this]

theorem mergeGo_records_sublist (prio : PriorityOracle) (enabled : Bool) :
    ∀ (l : List FullHistoricPriceData) (rows deltaRows : List Row),
      (mergeGo prio enabled l rows deltaRows).state.appendedRecords.Sublist l := by
  intro l
  induction l with
  | nil =>
    intro rows deltaRows
    simp [mergeGo, PipeResult.state]
  | cons r rest ih =>
    intro rows deltaRows
    by_cases hex : existsDate rows r.priceData.date = true
    · rw [mergeGo_cons_skip _ _ _ _ _ _ hex]
      exact (ih rows deltaRows).cons r
    · have hex' : existsDate rows r.priceData.date = false := by
        simpa using hex
      by_cases hf : enabled ∧ performImportToPriority prio (priorityPayload r)
          r.priceData.date = .fatalTransport
      · rw [mergeGo_cons_fatal _ _ _ _ _ _ hex' hf]
        simp [PipeResult.state]
      · by_cases hp : enabled ∧ performImportToPriority prio (priorityPayload r)
            r.priceData.date = .panicked
        · rw [mergeGo_cons_panic _ _ _ _ _ _ hex' hf hp]
          simp [PipeResult.state]
        · rw [mergeGo_cons_append _ _ _ _ _ _ hex' hf hp]
          rw [PipeResult.state_mapState]
          simp only []
          exact (ih (rows ++ [addDataRow r]) (deltaRows ++ [addDataRow r])).cons₂ r

theorem mergeGo_kind (prio : PriorityOracle) (enabled : Bool) :
    ∀ (l : List FullHistoricPriceData) (rows deltaRows : List Row),
      (mergeGo prio enabled l rows deltaRows).kind = Kind.ok
        ∨ (mergeGo prio enabled l rows deltaRows).kind = Kind.fatal
        ∨ (mergeGo prio enabled l rows deltaRows).kind = Kind.panicked := by
  intro l
  induction l with
  | nil =>
    intro rows deltaRows
    simp [mergeGo, PipeResult.kind]
  | cons r rest ih =>
    intro rows deltaRows
    by_cases hex : existsDate rows r.priceData.date = true
    · rw [mergeGo_cons_skip _ _ _ _ _ _ hex]
      exact ih rows deltaRows
    · have hex' : existsDate rows r.priceData.date = false := by
        simpa using hex
      by_cases hf : enabled ∧ performImportToPriority prio (priorityPayload r)
          r.priceData.date = .fatalTransport
      · rw [mergeGo_cons_fatal _ _ _ _ _ _ hex' hf]
        simp [PipeResult.kind]
      · by_cases hp : enabled ∧ performImportToPriority prio (priorityPayload r)
            r.priceData.date = .panicked
        · rw [mergeGo_cons_panic _ _ _ _ _ _ hex' hf hp]
          simp [PipeResult.kind]
        · rw [mergeGo_cons_append _ _ _ _ _ _ hex' hf hp]
          rw [PipeResult.kind_mapState]
          exact ih (rows ++ [addDataRow r]) (deltaRows ++ [addDataRow r])

theorem mergeGo_records_fresh (prio : PriorityOracle) (enabled : Bool) :
    ∀ (l : List FullHistoricPriceData) (rows deltaRows : List Row),
      ∀ rec ∈ (mergeGo prio enabled l rows deltaRows).state.appendedRecords,
        existsDate rows rec.priceData.date = false := by
  intro l
  induction l with
  | nil =>
    intro rows deltaRows rec hrec
    simp [mergeGo, PipeResult.state] at hrec
  | cons r rest ih =>
    intro rows deltaRows rec hrec
    by_cases hex : existsDate rows r.priceData.date = true
    · rw [mergeGo_cons_skip _ _ _ _ _ _ hex] at hrec
      exact ih rows deltaRows rec hrec
    · have hex' : existsDate rows r.priceData.date = false := by
        simpa using hex
      by_cases hf : enabled ∧ performImportToPriority prio (priorityPayload r)
          r.priceData.date = .fatalTransport
      · rw [mergeGo_cons_fatal _ _ _ _ _ _ hex' hf] at hrec
        simp [PipeResult.state] at hrec
      · by_cases hp : enabled ∧ performImportToPriority prio (priorityPayload r)
            r.priceData.date = .panicked
        · rw [mergeGo_cons_panic _ _ _ _ _ _ hex' hf hp] at hrec
          simp [PipeResult.state] at hrec
        · rw [mergeGo_cons_append _ _ _ _ _ _ hex' hf hp] at hrec
          rw [PipeResult.state_mapState] at hrec
          simp only [List.mem_cons] at hrec
          rcases hrec with hrec | hrec
          · subst hrec
            exact hex'
          · have := ih (rows ++ [addDataRow r]) (deltaRows ++ [addDataRow r]) rec hrec
            rw [existsDate_append] at this
            simp only [Bool.or_eq_false_iff] at this
            exact this.1

theorem addDataRow_head (r : FullHistoricPriceData) :
    (addDataRow r).head? = some (Value.vDate r.priceData.date) := rfl

theorem mergeGo_ok_presence (prio : PriorityOracle) (enabled : Bool) :
    ∀ (l : List FullHistoricPriceData) (rows deltaRows : List Row)
      (st : MergeRes), mergeGo prio enabled l rows deltaRows = .ok st →
      ∀ r ∈ l, ∃ row ∈ st.rows, row.head? = some (Value.vDate r.priceData.date) := by
  intro l
  induction l with
  | nil =>
    intro rows deltaRows st _ r hr
    simp at hr
  | cons r rest ih =>
    intro rows deltaRows st hok q hq
    have hrows : st.rows = rows ++ st.appended := by
      have := mergeGo_rows_eq prio enabled (r :: rest) rows deltaRows
      rw [hok] at this
      exact this
    by_cases hex : existsDate rows r.priceData.date = true
    · rw [mergeGo_cons_skip _ _ _ _ _ _ hex] at hok
      rcases List.mem_cons.mp hq with hq | hq
      · subst hq
        rcases (existsDate_iff rows q.priceData.date).mp hex with ⟨row, hrow, hhead⟩
        exact ⟨row, by rw [hrows]; exact List.mem_append_left _ hrow, hhead⟩
      · exact ih rows deltaRows st hok q hq
    · have hex' : existsDate rows r.priceData.date = false := by
        simpa using hex
      by_cases hf : enabled ∧ performImportToPriority prio (priorityPayload r)
          r.priceData.date = .fatalTransport
      · rw [mergeGo_cons_fatal _ _ _ _ _ _ hex' hf] at hok
        exact absurd hok (by simp)
      · by_cases hp : enabled ∧ performImportToPriority prio (priorityPayload r)
            r.priceData.date = .panicked
        · rw [mergeGo_cons_panic _ _ _ _ _ _ hex' hf hp] at hok
          exact absurd hok (by simp)
        · rw [mergeGo_cons_append _ _ _ _ _ _ hex' hf hp] at hok
          rcases hrec : mergeGo prio enabled rest (rows ++ [addDataRow r])
              (deltaRows ++ [addDataRow r]) with s | ⟨m, s⟩ | s | s
          · rw [hrec] at hok
            simp only [PipeResult.mapState] at hok
            injection hok with hinj
            subst hinj
            have hsrows : s.rows = (rows ++ [addDataRow r]) ++ s.appended := by
              have := mergeGo_rows_eq prio enabled rest (rows ++ [addDataRow r])
                (deltaRows ++ [addDataRow r])
              rw [hrec] at this
              exact this
            rcases List.mem_cons.mp hq with hq' | hq'
            · subst hq'
              refine ⟨addDataRow q, ?_, addDataRow_head q⟩
              simp only []
              rw [hsrows]
              simp
            · rcases ih (rows ++ [addDataRow r]) (deltaRows ++ [addDataRow r]) s hrec q hq'
                with ⟨row, hrow, hhead⟩
              refine ⟨row, ?_, hhead⟩
              simp only []
              exact hrow
          · rw [hrec] at hok
            simp [PipeResult.mapState] at hok
          · rw [hrec] at hok
            simp [PipeResult.mapState] at hok
          · rw [hrec] at hok
            simp [PipeResult.mapState] at hok

theorem mergeGo_skip_all (prio : PriorityOracle) (enabled : Bool) :
    ∀ (l : List FullHistoricPriceData) (rows deltaRows : List Row),
      (∀ r ∈ l, ∃ row ∈ rows, row.head? = some (Value.vDate r.priceData.date)) →
      mergeGo prio enabled l rows deltaRows = .ok ⟨rows, deltaRows, [], [], [], []⟩ := by
  intro l
  induction l with
  | nil =>
    intro rows deltaRows _
    simp [mergeGo]
  | cons r rest ih =>
    intro rows deltaRows h
    have hex : existsDate rows r.priceData.date = true :=
      (existsDate_iff rows r.priceData.date).mpr (h r (List.mem_cons_self r rest))
    rw [mergeGo_cons_skip _ _ _ _ _ _ hex]
    exact ih rows deltaRows (fun q hq => h q (List.mem_cons_of_mem r hq))

theorem mergeGo_delta_indep (prio : PriorityOracle) (enabled : Bool) :
    ∀ (l : List FullHistoricPriceData) (rows d₁ d₂ : List Row),
      (mergeGo prio enabled l rows d₁).kind = (mergeGo prio enabled l rows d₂).kind
      ∧ (mergeGo prio enabled l rows d₁).state.rows
          = (mergeGo prio enabled l rows d₂).state.rows
      ∧ (mergeGo prio enabled l rows d₁).state.appended
          = (mergeGo prio enabled l rows d₂).state.appended
      ∧ (mergeGo prio enabled l rows d₁).state.appendedRecords
          = (mergeGo prio enabled l rows d₂).state.appendedRecords
      ∧ (mergeGo prio enabled l rows d₁).state.forwarded
          = (mergeGo prio enabled l rows d₂).state.forwarded := by
  intro l
  induction l with
  | nil =>
    intro rows d₁ d₂
    simp [mergeGo, PipeResult.state, PipeResult.kind]
  | cons r rest ih =>
    intro rows d₁ d₂
    by_cases hex : existsDate rows r.priceData.date = true
    · rw [mergeGo_cons_skip _ _ _ _ _ _ hex, mergeGo_cons_skip _ _ _ _ _ _ hex]
      exact ih rows d₁ d₂
    · have hex' : existsDate rows r.priceData.date = false := by
        simpa using hex
      by_cases hf : enabled ∧ performImportToPriority prio (priorityPayload r)
          r.priceData.date = .fatalTransport
      · rw [mergeGo_cons_fatal _ _ _ _ _ _ hex' hf,
          mergeGo_cons_fatal _ _ _ _ _ _ hex' hf]
        simp [PipeResult.state, PipeResult.kind]
      · by_cases hp : enabled ∧ performImportToPriority prio (priorityPayload r)
            r.priceData.date = .panicked
        · rw [mergeGo_cons_panic _ _ _ _ _ _ hex' hf hp,
            mergeGo_cons_panic _ _ _ _ _ _ hex' hf hp]
          simp [PipeResult.state, PipeResult.kind]
        · rw [mergeGo_cons_append _ _ _ _ _ _ hex' hf hp,
            mergeGo_cons_append _ _ _ _ _ _ hex' hf hp]
          rcases ih (rows ++ [addDataRow r]) (d₁ ++ [addDataRow r]) (d₂ ++ [addDataRow r])
            with ⟨hkind, hrows, happ, hrecs, hfwd⟩
          rw [PipeResult.kind_mapState, PipeResult.kind_mapState,
            PipeResult.state_mapState, PipeResult.state_mapState]
          simp only []
          exact ⟨hkind, hrows, by rw [happ], by rw [hrecs], by rw [hfwd]⟩

theorem mergeGo_forwarding_harmless (prio : PriorityOracle)
    (hprio : ∀ q d, performImportToPriority prio q d ≠ .fatalTransport
      ∧ performImportToPriority prio q d ≠ .panicked) :
    ∀ (l : List FullHistoricPriceData) (rows deltaRows : List Row),
      (mergeGo prio true l rows deltaRows).kind
          = (mergeGo prio false l rows deltaRows).kind
      ∧ (mergeGo prio true l rows deltaRows).state.rows
          = (mergeGo prio false l rows deltaRows).state.rows
      ∧ (mergeGo prio true l rows deltaRows).state.deltaRows
          = (mergeGo prio false l rows deltaRows).state.deltaRows
      ∧ (mergeGo prio true l rows deltaRows).state.appended
          = (mergeGo prio false l rows deltaRows).state.appended
      ∧ (mergeGo prio true l rows deltaRows).state.appendedRecords
          = (mergeGo prio false l rows deltaRows).state.appendedRecords := by
  intro l
  induction l with
  | nil =>
    intro rows deltaRows
    simp [mergeGo, PipeResult.state, PipeResult.kind]
  | cons r rest ih =>
    intro rows deltaRows
    by_cases hex : existsDate rows r.priceData.date = true
    · rw [mergeGo_cons_skip _ _ _ _ _ _ hex, mergeGo_cons_skip _ _ _ _ _ _ hex]
      exact ih rows deltaRows
    · have hex' : existsDate rows r.priceData.date = false := by
        simpa using hex
      have hf₁ : ¬((true : Bool) ∧ performImportToPriority prio (priorityPayload r)
          r.priceData.date = .fatalTransport) := by
        rintro ⟨-, hcontra⟩
        exact (hprio _ _).1 hcontra
      have hp₁ : ¬((true : Bool) ∧ performImportToPriority prio (priorityPayload r)
          r.priceData.date = .panicked) := by
        rintro ⟨-, hcontra⟩
        exact (hprio _ _).2 hcontra
      have hf₂ : ¬((false : Bool) ∧ performImportToPriority prio (priorityPayload r)
          r.priceData.date = .fatalTransport) := by
        rintro ⟨hcontra, -⟩
        simp at hcontra
      have hp₂ : ¬((false : Bool) ∧ performImportToPriority prio (priorityPayload r)
          r.priceData.date = .panicked) := by
        rintro ⟨hcontra, -⟩
        simp at hcontra
      rw [mergeGo_cons_append _ _ _ _ _ _ hex' hf₁ hp₁,
        mergeGo_cons_append _ _ _ _ _ _ hex' hf₂ hp₂]
      rcases ih (rows ++ [addDataRow r]) (deltaRows ++ [addDataRow r])
        with ⟨hkind, hrows, hdelta, happ, hrecs⟩
      rw [PipeResult.kind_mapState, PipeResult.kind_mapState,
        PipeResult.state_mapState, PipeResult.state_mapState]
      simp only []
      exact ⟨hkind, hrows, hdelta, by rw [happ], by rw [hrecs]⟩

/-- The valid closes of a series prefix: the `close` values of the days with
`close > 0`, in order — exactly the values the tracker feeds to the buffer. -/
def validCloses (l : List HistoricPriceData) : List ℚ :=
  (l.filter (fun e => e.close > 0)).map (fun e => e.close)

/-- The last `n` elements of a list. -/
def lastN (n : ℕ) (l : List ℚ) : List ℚ := l.drop (l.length - n)

theorem validCloses_nil : validCloses [] = [] := rfl

theorem validCloses_cons (e : HistoricPriceData) (l : List HistoricPriceData) :
    validCloses (e :: l)
      = (if e.close > 0 then [e.close] else []) ++ validCloses l := by
  by_cases h : e.close > 0 <;> simp [validCloses, h]

theorem validCloses_pos (l : List HistoricPriceData) :
    ∀ x ∈ validCloses l, 0 < x := by
  intro x hx
  simp only [validCloses, List.mem_map, List.mem_filter] at hx
  rcases hx with ⟨e, ⟨-, he⟩, hex⟩
  rw [← hex]
  exact of_decide_eq_true he

theorem maAdd_lastN (w : ℕ) (V : List ℚ) (c : ℚ) :
    maAdd w (lastN w V) c = lastN w (V ++ [c]) := by
  unfold maAdd lastN
  simp only [List.length_append, List.length_drop, List.length_cons,
    List.length_nil]
  rw [List.drop_append_eq_append_drop, List.drop_append_eq_append_drop,
    List.drop_drop]
  congr 1
  · congr 1
    omega
  · congr 1
    simp only [List.length_drop]
    omega

theorem lastN_length (n : ℕ) (l : List ℚ) :
    (lastN n l).length = l.length - (l.length - n) := by
  simp [lastN]

theorem lastN_subset (n : ℕ) (l : List ℚ) : lastN n l ⊆ l :=
  List.drop_subset _ _

theorem maAvg_pos (l : List ℚ) (hne : l ≠ []) (hpos : ∀ x ∈ l, 0 < x) :
    0 < maAvg l := by
  unfold maAvg
  apply div_pos
  · exact List.sum_pos l hpos hne
  · exact_mod_cast List.length_pos.mpr hne

theorem enrichGo_nil (oracle : BankOracle) (w : ℕ) (ma : List ℚ) (j : ℕ)
    (cache : Cache) : enrichGo oracle w [] ma j cache = .ok [] cache [] := rfl

theorem enrichGo_cons_panic (oracle : BankOracle) (w : ℕ)
    (e : HistoricPriceData) (rest : List HistoricPriceData) (ma : List ℚ)
    (j : ℕ) (cache cache' : Cache) (probes : List ℤ)
    (h : getShekelConversionRatio oracle cache e.date = (.panic, cache', probes)) :
    enrichGo oracle w (e :: rest) ma j cache = .panicked cache' [e.date] := by
  simp [enrichGo, h]

theorem enrichGo_cons_err (oracle : BankOracle) (w : ℕ)
    (e : HistoricPriceData) (rest : List HistoricPriceData) (ma : List ℚ)
    (j : ℕ) (cache cache' : Cache) (msg : String) (probes : List ℤ)
    (h : getShekelConversionRatio oracle cache e.date = (.err msg, cache', probes)) :
    enrichGo oracle w (e :: rest) ma j cache = .errOut msg cache' [e.date] := by
  simp [enrichGo, h]

theorem enrichGo_cons_ok (oracle : BankOracle) (w : ℕ)
    (e : HistoricPriceData) (rest : List HistoricPriceData) (ma : List ℚ)
    (j : ℕ) (cache cache' : Cache) (r : ℚ) (probes : List ℤ)
    (h : getShekelConversionRatio oracle cache e.date = (.ok r, cache', probes)) :
    enrichGo oracle w (e :: rest) ma j cache
      = (enrichGo oracle w rest (if e.close > 0 then maAdd w ma e.close else ma)
          (if e.close > 0 then j + 1 else j) cache').consOut e
          (if (if e.close > 0 then j + 1 else j) > w
           then maAvg (if e.close > 0 then maAdd w ma e.close else ma) else 0) r := by
  simp [enrichGo, h]

theorem enrichGo_ok_shape (oracle : BankOracle) (w : ℕ) :
    ∀ (l : List HistoricPriceData) (ma : List ℚ) (j : ℕ) (cache : Cache)
      (full : List FullHistoricPriceData) (c : Cache) (ls : List ℤ),
      enrichGo oracle w l ma j cache = .ok full c ls →
      full.map (fun r => r.priceData) = l ∧ ls = l.map (fun e => e.date) := by
  intro l
  induction l with
  | nil =>
    intro ma j cache full c ls h
    rw [enrichGo_nil] at h
    injection h with h1 h2 h3
    subst h1
    subst h3
    simp
  | cons e rest ih =>
    intro ma j cache full c ls h
    rcases hsr : getShekelConversionRatio oracle cache e.date with ⟨res, cache', probes⟩
    rcases res with r | msg | _
    · rw [enrichGo_cons_ok oracle w e rest ma j cache cache' r probes hsr] at h
      rcases hrec : enrichGo oracle w rest
          (if e.close > 0 then maAdd w ma e.close else ma)
          (if e.close > 0 then j + 1 else j) cache'
          with ⟨full', c', ls'⟩ | ⟨msg', c', ls'⟩ | ⟨c', ls'⟩
      · rw [hrec] at h
        simp only [EnrichOut.consOut] at h
        injection h with h1 h2 h3
        subst h1
        subst h2
        subst h3
        rcases ih _ _ _ _ _ _ hrec with ⟨hfull, hls⟩
        constructor
        · simp [hfull]
        · simp [hls]
      · rw [hrec] at h
        simp [EnrichOut.consOut] at h
      · rw [hrec] at h
        simp [EnrichOut.consOut] at h
    · rw [enrichGo_cons_err oracle w e rest ma j cache cache' msg probes hsr] at h
      exact absurd h (by simp)
    · rw [enrichGo_cons_panic oracle w e rest ma j cache cache' probes hsr] at h
      exact absurd h (by simp)

theorem getShekelConversionRatio_hit (oracle : BankOracle) (cache : Cache)
    (date : ℤ) (r : ℚ) (h : cacheLookup cache date = some r) :
    getShekelConversionRatio oracle cache date = (.ok r, cache, []) := by
  simp [getShekelConversionRatio, h]

theorem getShekelConversionRatio_ok_cache (oracle : BankOracle) (cache : Cache)
    (date : ℤ) (r : ℚ) (cache' : Cache) (probes : List ℤ)
    (h : getShekelConversionRatio oracle cache date = (.ok r, cache', probes)) :
    cacheLookup cache' date = some r
    ∧ ∀ d v, cacheLookup cache d = some v → cacheLookup cache' d = some v := by
  unfold getShekelConversionRatio at h
  rcases hc : cacheLookup cache date with _ | r₀
  · rw [hc] at h
    rcases hb : getFromIsraelBank oracle date 20 with ⟨res, probes₀⟩
    rw [hb] at h
    rcases res with r₁ | msg | _
    · simp only [Prod.mk.injEq, RateResult.ok.injEq] at h
      rcases h with ⟨h1, h2, h3⟩
      subst h1
      subst h2
      constructor
      · simp [cacheLookup]
      · intro d v hdv
        by_cases hdd : date = d
        · subst hdd
          rw [hc] at hdv
          exact absurd hdv (by simp)
        · simpa [cacheLookup, hdd] using hdv
    · simp at h
    · simp at h
  · rw [hc] at h
    simp only [Prod.mk.injEq, RateResult.ok.injEq] at h
    rcases h with ⟨h1, h2, h3⟩
    subst h1
    subst h2
    exact ⟨hc, fun d v hdv => hdv⟩

theorem getShekelConversionRatio_panic_cache (oracle : BankOracle)
    (cache : Cache) (date : ℤ) (cache' : Cache) (probes : List ℤ)
    (h : getShekelConversionRatio oracle cache date = (.panic, cache', probes)) :
    cache' = cache := by
  unfold getShekelConversionRatio at h
  rcases hc : cacheLookup cache date with _ | r₀
  · rw [hc] at h
    rcases hb : getFromIsraelBank oracle date 20 with ⟨res, probes₀⟩
    rw [hb] at h
    rcases res with r₁ | msg | _
    · simp at h
    · simp at h
    · simp only [Prod.mk.injEq] at h
      exact h.2.1.symm
  · rw [hc] at h
    simp at h

theorem enrichGo_ok_cache (oracle : BankOracle) (w : ℕ) :
    ∀ (l : List HistoricPriceData) (ma : List ℚ) (j : ℕ) (cache : Cache)
      (full : List FullHistoricPriceData) (c : Cache) (ls : List ℤ),
      enrichGo oracle w l ma j cache = .ok full c ls →
      (∀ d v, cacheLookup cache d = some v → cacheLookup c d = some v)
      ∧ ∀ e ∈ l, ∃ v, cacheLookup c e.date = some v := by
  intro l
  induction l with
  | nil =>
    intro ma j cache full c ls h
    rw [enrichGo_nil] at h
    injection h with h1 h2 h3
    subst h2
    exact ⟨fun d v hv => hv, by simp⟩
  | cons e rest ih =>
    intro ma j cache full c ls h
    rcases hsr : getShekelConversionRatio oracle cache e.date with ⟨res, cache', probes⟩
    rcases res with r | msg | _
    · rw [enrichGo_cons_ok oracle w e rest ma j cache cache' r probes hsr] at h
      rcases hrec : enrichGo oracle w rest
          (if e.close > 0 then maAdd w ma e.close else ma)
          (if e.close > 0 then j + 1 else j) cache'
          with ⟨full', c', ls'⟩ | ⟨msg', c', ls'⟩ | ⟨c', ls'⟩
      · rw [hrec] at h
        simp only [EnrichOut.consOut] at h
        injection h with h1 h2 h3
        subst h2
        rcases getShekelConversionRatio_ok_cache oracle cache e.date r cache' probes hsr
          with ⟨hhit, hmono⟩
        rcases ih _ _ _ _ _ _ hrec with ⟨hmono', hcover⟩
        refine ⟨fun d v hv => hmono' d v (hmono d v hv), ?_⟩
        intro q hq
        rcases List.mem_cons.mp hq with hq' | hq'
        · subst hq'
          exact ⟨r, hmono' _ _ hhit⟩
        · exact hcover q hq'
      · rw [hrec] at h
        simp [EnrichOut.consOut] at h
      · rw [hrec] at h
        simp [EnrichOut.consOut] at h
    · rw [enrichGo_cons_err oracle w e rest ma j cache cache' msg probes hsr] at h
      exact absurd h (by simp)
    · rw [enrichGo_cons_panic oracle w e rest ma j cache cache' probes hsr] at h
      exact absurd h (by simp)

theorem enrichGo_all_hit (oracle : BankOracle) (w : ℕ) :
    ∀ (l : List HistoricPriceData) (ma : List ℚ) (j : ℕ) (cache : Cache),
      (∀ e ∈ l, ∃ v, cacheLookup cache e.date = some v) →
      ∃ full ls, enrichGo oracle w l ma j cache = .ok full cache ls := by
  intro l
  induction l with
  | nil =>
    intro ma j cache _
    exact ⟨[], [], rfl⟩
  | cons e rest ih =>
    intro ma j cache h
    rcases h e (List.mem_cons_self e rest) with ⟨v, hv⟩
    rw [enrichGo_cons_ok oracle w e rest ma j cache cache v []
      (getShekelConversionRatio_hit oracle cache e.date v hv)]
    rcases ih (if e.close > 0 then maAdd w ma e.close else ma)
        (if e.close > 0 then j + 1 else j) cache
        (fun q hq => h q (List.mem_cons_of_mem e hq)) with ⟨full', ls', hrec⟩
    rw [hrec]
    exact ⟨_, _, rfl⟩

theorem lastN_nil (w : ℕ) : lastN w [] = [] := by
  simp [lastN]

theorem enrichGo_averages (oracle : BankOracle) (w : ℕ) :
    ∀ (l : List HistoricPriceData) (V : List ℚ) (cache : Cache)
      (full : List FullHistoricPriceData) (c : Cache) (ls : List ℤ),
      enrichGo oracle w l (lastN w V) V.length cache = .ok full c ls →
      ∀ k (hk : k < full.length),
        (full.get ⟨k, hk⟩).average
          = if (V ++ validCloses (l.take (k + 1))).length > w
            then maAvg (lastN w (V ++ validCloses (l.take (k + 1))))
            else 0 := by
  intro l
  induction l with
  | nil =>
    intro V cache full c ls h k hk
    rw [enrichGo_nil] at h
    injection h with h1 h2 h3
    subst h1
    simp at hk
  | cons e rest ih =>
    intro V cache full c ls h k hk
    rcases hsr : getShekelConversionRatio oracle cache e.date with ⟨res, cache', probes⟩
    rcases res with r | msg | _
    · rw [enrichGo_cons_ok oracle w e rest _ _ cache cache' r probes hsr] at h
      have hma : (if e.close > 0 then maAdd w (lastN w V) e.close else lastN w V)
          = lastN w (if e.close > 0 then V ++ [e.close] else V) := by
        by_cases hcl : e.close > 0
        · simp only [hcl, if_true, maAdd_lastN]
        · simp only [hcl, if_false]
      have hj : (if e.close > 0 then V.length + 1 else V.length)
          = (if e.close > 0 then V ++ [e.close] else V).length := by
        by_cases hcl : e.close > 0 <;> simp [hcl]
      rw [hma, hj] at h
      rcases hrec : enrichGo oracle w rest
          (lastN w (if e.close > 0 then V ++ [e.close] else V))
          (if e.close > 0 then V ++ [e.close] else V).length cache'
          with ⟨full', c', ls'⟩ | ⟨msg', c', ls'⟩ | ⟨c', ls'⟩
      · rw [hrec] at h
        simp only [EnrichOut.consOut] at h
        injection h with h1 h2 h3
        subst h1
        rcases k with _ | k
        · simp only [List.get, List.take_succ_cons, List.take_zero,
            validCloses_cons, validCloses_nil, List.append_nil]
          by_cases hcl : e.close > 0 <;> simp [hcl]
        · have hk' : k < full'.length := by
            simpa using hk
          have hih := ih (if e.close > 0 then V ++ [e.close] else V) cache' full'
            c' ls' hrec k hk'
          have hvc : V ++ validCloses ((e :: rest).take (k + 1 + 1))
              = (if e.close > 0 then V ++ [e.close] else V)
                  ++ validCloses (rest.take (k + 1)) := by
            rw [List.take_succ_cons, validCloses_cons]
            by_cases hcl : e.close > 0 <;> simp [hcl]
          rw [List.get_cons_succ, hvc]
          exact hih
      · rw [hrec] at h
        simp [EnrichOut.consOut] at h
      · rw [hrec] at h
        simp [EnrichOut.consOut] at h
    · rw [enrichGo_cons_err oracle w e rest _ _ cache cache' msg probes hsr] at h
      exact absurd h (by simp)
    · rw [enrichGo_cons_panic oracle w e rest _ _ cache cache' probes hsr] at h
      exact absurd h (by simp)

/-- The enriched batch of an enrichment-pass outcome (`[]` if it aborted). -/
def EnrichOut.fullList : EnrichOut → List FullHistoricPriceData
  | .ok full _ _ => full
  | .errOut _ _ _ => []
  | .panicked _ _ => []

/-- The cache of an enrichment-pass outcome. -/
def EnrichOut.cacheOut : EnrichOut → Cache
  | .ok _ c _ => c
  | .errOut _ c _ => c
  | .panicked c _ => c

/-- The lookup trace of an enrichment-pass outcome. -/
def EnrichOut.lookupsOut : EnrichOut → List ℤ
  | .ok _ _ ls => ls
  | .errOut _ _ ls => ls
  | .panicked _ ls => ls

theorem EnrichOut.lookupsOut_consOut (e : HistoricPriceData) (avg r : ℚ)
    (x : EnrichOut) :
    (x.consOut e avg r).lookupsOut = e.date :: x.lookupsOut := by
  cases x <;> rfl

/-- A sample market day: date `d`, close `c`, benign values elsewhere. -/
def sampleDay (d : ℤ) (c : ℚ) : HistoricPriceData := ⟨d, 1, 1, 1, c, 0, 0⟩

/-- The spec's worked example, oldest to newest: closes 0, 10, 20, 0, 30. -/
def exampleSeries : List HistoricPriceData :=
  [sampleDay 1 0, sampleDay 2 10, sampleDay 3 20, sampleDay 4 0, sampleDay 5 30]

/-- A bank oracle that always answers 200 with rate 1. -/
def constOracle : BankOracle := fun _ => .rate 1

/-- C1: in the enrichment pass of `writePriceData` (which walks the fetched
series oldest-to-newest, i.e. `enrichGo` applied to the chronological list),
a record carries a nonzero numeric moving average exactly when strictly more
than `w` valid closes (`close > 0`; zero/negative closes excluded from buffer
and counter) have accumulated up to and including that day; when it does, the
value is the mean of the trailing buffer (the last `w` valid closes), and
otherwise it is the sentinel `0`.  In particular, for closes
`[0, 10, 20, 0, 30]` with window 2, only the last record carries a numeric
average, `mean(20, 30) = 25`, and all earlier records carry the sentinel. -/
theorem c1_moving_average_threshold :
    (∀ (oracle : BankOracle) (w : ℕ), 0 < w →
      ∀ (series : List HistoricPriceData) (cache : Cache)
        (full : List FullHistoricPriceData) (c : Cache) (ls : List ℤ),
        enrichGo oracle w series [] 0 cache = .ok full c ls →
        ∀ k (hk : k < full.length),
          ((full.get ⟨k, hk⟩).average ≠ 0
              ↔ (validCloses (series.take (k + 1))).length > w)
          ∧ ((validCloses (series.take (k + 1))).length > w →
              (full.get ⟨k, hk⟩).average
                = maAvg (lastN w (validCloses (series.take (k + 1)))))
          ∧ (¬(validCloses (series.take (k + 1))).length > w →
              (full.get ⟨k, hk⟩).average = 0))
    ∧ (enrichGo constOracle 2 exampleSeries [] 0 []).fullList.map
        (fun r => r.average) = [0, 0, 0, 0, 25] := by
  constructor
  · intro oracle w hw series cache full c ls h k hk
    have hV : enrichGo oracle w series (lastN w []) ([] : List ℚ).length cache
        = .ok full c ls := by
      rw [lastN_nil]
      exact h
    have havg := enrichGo_averages oracle w series [] cache full c ls hV k hk
    rw [List.nil_append] at havg
    have hposcase : (validCloses (series.take (k + 1))).length > w →
        (full.get ⟨k, hk⟩).average
          = maAvg (lastN w (validCloses (series.take (k + 1)))) := by
      intro hgt
      rw [havg, if_pos hgt]
    have hzerocase : ¬(validCloses (series.take (k + 1))).length > w →
        (full.get ⟨k, hk⟩).average = 0 := by
      intro hle
      rw [havg, if_neg hle]
    refine ⟨?_, hposcase, hzerocase⟩
    constructor
    · intro hne
      by_contra hle
      exact hne (hzerocase hle)
    · intro hgt
      rw [hposcase hgt]
      have hnn : lastN w (validCloses (series.take (k + 1))) ≠ [] := by
        apply List.length_pos.mp
        rw [lastN_length]
        omega
      have hpos : 0 < maAvg (lastN w (validCloses (series.take (k + 1)))) := by
        apply maAvg_pos _ hnn
        intro x hx
        exact validCloses_pos _ x (lastN_subset _ _ hx)
      exact ne_of_gt hpos
  · norm_num [enrichGo, getShekelConversionRatio, cacheLookup, getFromIsraelBank,
      maAdd, maAvg, sampleDay, exampleSeries, constOracle, EnrichOut.fullList,
      EnrichOut.consOut]

theorem writePriceDataW_panicked_eq (oracle : BankOracle) (prio : PriorityOracle)
    (enabled : Bool) (w : ℕ) (sheet deltaSheet : Option (List Row))
    (cache : Cache) (data : List HistoricPriceData) (c : Cache) (ls : List ℤ)
    (h : enrichGo oracle w data.reverse [] 0 cache = .panicked c ls) :
    writePriceDataW oracle prio enabled w sheet deltaSheet cache data
      = .panicked ⟨AddCurrency sheet, AddCurrency deltaSheet, c,
          [], [], [], [], ls⟩ := by
  unfold writePriceDataW
  rw [h]

theorem writePriceDataW_err_eq (oracle : BankOracle) (prio : PriorityOracle)
    (enabled : Bool) (w : ℕ) (sheet deltaSheet : Option (List Row))
    (cache : Cache) (data : List HistoricPriceData) (msg : String) (c : Cache)
    (ls : List ℤ)
    (h : enrichGo oracle w data.reverse [] 0 cache = .errOut msg c ls) :
    writePriceDataW oracle prio enabled w sheet deltaSheet cache data
      = .err msg ⟨AddCurrency sheet, AddCurrency deltaSheet, c,
          [], [], [], [], ls⟩ := by
  unfold writePriceDataW
  rw [h]

theorem writePriceDataW_ok_eq (oracle : BankOracle) (prio : PriorityOracle)
    (enabled : Bool) (w : ℕ) (sheet deltaSheet : Option (List Row))
    (cache : Cache) (data : List HistoricPriceData)
    (full : List FullHistoricPriceData) (c : Cache) (ls : List ℤ)
    (h : enrichGo oracle w data.reverse [] 0 cache = .ok full c ls) :
    writePriceDataW oracle prio enabled w sheet deltaSheet cache data
      = (mergeGo prio enabled full.reverse (AddCurrency sheet)
          (AddCurrency deltaSheet)).mapState (mergeToWPD c ls) := by
  unfold writePriceDataW
  rw [h]

theorem full_reverse_dates (data : List HistoricPriceData)
    (full : List FullHistoricPriceData)
    (hshape : full.map (fun r => r.priceData) = data.reverse) :
    full.reverse.map (fun r => r.priceData.date) = data.map (fun e => e.date) := by
  have h1 : full.reverse.map (fun r => r.priceData.date)
      = ((full.map (fun r => r.priceData)).map (fun e => e.date)).reverse := by
    rw [List.map_reverse, List.map_map]
    rfl
  rw [h1, hshape, ← List.map_reverse, List.reverse_reverse]

/-- 2024-01-03 … 2024-01-07 (epoch days 19725 … 19729), newest first, the
order the market API returns the window in. -/
def batchSeries : List HistoricPriceData :=
  [sampleDay 19729 1, sampleDay 19728 1, sampleDay 19727 1, sampleDay 19726 1,
   sampleDay 19725 1]

/-- An existing report sheet with rows keyed 2024-01-01 … 2024-01-05
(epoch days 19723 … 19727); dedup only reads the first-column key. -/
def existingRows : List Row :=
  [headerRow, [Value.vDate 19723], [Value.vDate 19724], [Value.vDate 19725],
   [Value.vDate 19726], [Value.vDate 19727]]

/-- A Priority oracle that always answers 201 Created. -/
def okPriority : PriorityOracle := fun _ _ => .status 201 .noForm

/-- C2 counterexample: merging the batch 2024-01-03..07 (epoch days
19725..19729, fetched newest-first) into a report holding 01-01..05
(19723..19727) appends the rows dated 19729 (01-07) and then 19728 (01-06) —
descending date order, not the ascending order the claim states. -/
theorem c2_counterexample :
    ((writePriceData constOracle okPriority false (some existingRows)
        (some [headerRow]) [] batchSeries).state.appendedRecords.map
        (fun r => r.priceData.date)) = [19729, 19728]
    ∧ ([19729, 19728] : List ℤ) ≠ [19728, 19729] := by
  exact ⟨by decide, by decide⟩

/-- C2 (amended): the merge loop walks the enriched batch from its last
element back — which is the fetched series' own newest-first order — for both
duplicate detection and committing, so the dates of newly appended rows form
a subsequence of the fetched series' date list; when the fetched series is
strictly descending by date (the upstream newest-first order), new rows are
appended in strictly descending date order.  Merging the batch
2024-01-03..07 into a report holding 01-01..05 appends exactly the rows for
01-07 and 01-06, in that (descending) order. -/
theorem c2_append_order_amended :
    (∀ (oracle : BankOracle) (prio : PriorityOracle) (enabled : Bool) (w : ℕ)
      (sheet deltaSheet : Option (List Row)) (cache : Cache)
      (data : List HistoricPriceData),
      (((writePriceDataW oracle prio enabled w sheet deltaSheet cache
          data).state.appendedRecords.map (fun r => r.priceData.date)).Sublist
        (data.map (fun e => e.date)))
      ∧ ((data.map (fun e => e.date)).Pairwise (fun a b => a > b) →
          ((writePriceDataW oracle prio enabled w sheet deltaSheet cache
            data).state.appendedRecords.map
              (fun r => r.priceData.date)).Pairwise (fun a b => a > b)))
    ∧ ((writePriceData constOracle okPriority false (some existingRows)
        (some [headerRow]) [] batchSeries).state.appendedRecords.map
        (fun r => r.priceData.date)) = [19729, 19728] := by
  constructor
  · intro oracle prio enabled w sheet deltaSheet cache data
    have hsub : ((writePriceDataW oracle prio enabled w sheet deltaSheet cache
        data).state.appendedRecords.map (fun r => r.priceData.date)).Sublist
        (data.map (fun e => e.date)) := by
      rcases henr : enrichGo oracle w data.reverse [] 0 cache
          with ⟨full, c, ls⟩ | ⟨msg, c, ls⟩ | ⟨c, ls⟩
      · rw [writePriceDataW_ok_eq oracle prio enabled w sheet deltaSheet cache
          data full c ls henr]
        rw [PipeResult.state_mapState]
        simp only [mergeToWPD]
        have hshape := (enrichGo_ok_shape oracle w data.reverse [] 0 cache
          full c ls henr).1
        rw [← full_reverse_dates data full hshape]
        exact (mergeGo_records_sublist prio enabled full.reverse
          (AddCurrency sheet) (AddCurrency deltaSheet)).map
          (fun r => r.priceData.date)
      · rw [writePriceDataW_err_eq oracle prio enabled w sheet deltaSheet
          cache data msg c ls henr]
        simp [PipeResult.state]
      · rw [writePriceDataW_panicked_eq oracle prio enabled w sheet deltaSheet
          cache data c ls henr]
        simp [PipeResult.state]
    exact ⟨hsub, fun hpair => hpair.sublist hsub⟩
  · decide

theorem c1_moving_average_threshold_witness :
    ((enrichGo constOracle 2 exampleSeries [] 0 []).fullList.get
        ⟨4, by decide⟩).average ≠ 0
      ↔ (validCloses (exampleSeries.take 5)).length > 2 := by
  have h := c1_moving_average_threshold.1 constOracle 2 (by decide)
    exampleSeries []
    ((enrichGo constOracle 2 exampleSeries [] 0 []).fullList)
    ((enrichGo constOracle 2 exampleSeries [] 0 []).cacheOut)
    ((enrichGo constOracle 2 exampleSeries [] 0 []).lookupsOut)
    rfl 4 (by decide)
  exact h.1

theorem c2_append_order_amended_witness :
    ((writePriceData constOracle okPriority false (some existingRows)
        (some [headerRow]) [] batchSeries).state.appendedRecords.map
        (fun r => r.priceData.date)).Pairwise (fun a b => a > b) := by
  have h := (c2_append_order_amended.1 constOracle okPriority false AverageDays
    (some existingRows) (some [headerRow]) [] batchSeries).2
  exact h (by decide)

/-- C3: the merge step is idempotent.  A record whose (formatted-date) key
matches the first-column value of an existing row is skipped and never
appended — every appended record's key was absent from the pre-merge sheet —
and re-running `writePriceData` with the same fetched series against the
resulting report succeeds, appends zero rows, and leaves both sheets
unchanged. -/
theorem c3_merge_idempotent (oracle : BankOracle) (prio : PriorityOracle)
    (enabled : Bool) (w : ℕ) (sheet deltaSheet : Option (List Row))
    (cache : Cache) (data : List HistoricPriceData) (st : WPDState)
    (h : writePriceDataW oracle prio enabled w sheet deltaSheet cache data
      = .ok st) :
    (∀ rec ∈ st.appendedRecords,
        existsDate (AddCurrency sheet) rec.priceData.date = false)
    ∧ (writePriceDataW oracle prio enabled w (some st.rows) (some st.deltaRows)
        st.cache data).kind = Kind.ok
    ∧ (writePriceDataW oracle prio enabled w (some st.rows) (some st.deltaRows)
        st.cache data).state.appended = []
    ∧ (writePriceDataW oracle prio enabled w (some st.rows) (some st.deltaRows)
        st.cache data).state.rows = st.rows
    ∧ (writePriceDataW oracle prio enabled w (some st.rows) (some st.deltaRows)
        st.cache data).state.deltaRows = st.deltaRows := by
  rcases henr : enrichGo oracle w data.reverse [] 0 cache
      with ⟨full, c, ls⟩ | ⟨msg, c, ls⟩ | ⟨c, ls⟩
  · rw [writePriceDataW_ok_eq oracle prio enabled w sheet deltaSheet cache
      data full c ls henr] at h
    rcases hm : mergeGo prio enabled full.reverse (AddCurrency sheet)
        (AddCurrency deltaSheet) with m | ⟨msg, m⟩ | m | m
    rotate_left
    · rw [hm] at h
      exact absurd h (by simp [PipeResult.mapState])
    · rw [hm] at h
      exact absurd h (by simp [PipeResult.mapState])
    · rw [hm] at h
      exact absurd h (by simp [PipeResult.mapState])
    rw [hm] at h
    simp only [PipeResult.mapState] at h
    injection h with hst
    have hstrows : st.rows = m.rows := by
      rw [← hst]
      rfl
    have hstdelta : st.deltaRows = m.deltaRows := by
      rw [← hst]
      rfl
    have hstcache : st.cache = c := by
      rw [← hst]
      rfl
    have hstrecs : st.appendedRecords = m.appendedRecords := by
      rw [← hst]
      rfl
    have hfresh : ∀ rec ∈ st.appendedRecords,
        existsDate (AddCurrency sheet) rec.priceData.date = false := by
      rw [hstrecs]
      have := mergeGo_records_fresh prio enabled full.reverse
        (AddCurrency sheet) (AddCurrency deltaSheet)
      rw [hm] at this
      exact this
    have hshape := (enrichGo_ok_shape oracle w data.reverse [] 0 cache
      full c ls henr).1
    have hcover := (enrichGo_ok_cache oracle w data.reverse [] 0 cache
      full c ls henr).2
    have hpresence : ∀ r ∈ full.reverse, ∃ row ∈ m.rows,
        row.head? = some (Value.vDate r.priceData.date) := by
      have := mergeGo_ok_presence prio enabled full.reverse
        (AddCurrency sheet) (AddCurrency deltaSheet) m hm
      exact this
    rcases enrichGo_all_hit oracle w data.reverse [] 0 c hcover
      with ⟨full₂, ls₂, h₂⟩
    have hshape₂ := (enrichGo_ok_shape oracle w data.reverse [] 0 c
      full₂ c ls₂ h₂).1
    have hpresence₂ : ∀ r ∈ full₂.reverse, ∃ row ∈ st.rows,
        row.head? = some (Value.vDate r.priceData.date) := by
      intro r₂ hr₂
      have hr₂' : r₂ ∈ full₂ := List.mem_reverse.mp hr₂
      have hpd : r₂.priceData ∈ data.reverse := by
        rw [← hshape₂]
        exact List.mem_map_of_mem (fun r => r.priceData) hr₂'
      have hpd' : r₂.priceData ∈ full.map (fun r => r.priceData) := by
        rw [hshape]
        exact hpd
      rcases List.mem_map.mp hpd' with ⟨r₁, hr₁, hr₁eq⟩
      rcases hpresence r₁ (List.mem_reverse.mpr hr₁) with ⟨row, hrow, hhead⟩
      refine ⟨row, by rw [hstrows]; exact hrow, ?_⟩
      rw [hhead, hr₁eq]
    have hrun₂ : writePriceDataW oracle prio enabled w (some st.rows)
        (some st.deltaRows) st.cache data
        = (mergeGo prio enabled full₂.reverse st.rows st.deltaRows).mapState
            (mergeToWPD c ls₂) := by
      have := writePriceDataW_ok_eq oracle prio enabled w (some st.rows)
        (some st.deltaRows) st.cache data full₂ c ls₂ (by rw [hstcache]; exact h₂)
      rw [this]
      rfl
    have hm₂ : mergeGo prio enabled full₂.reverse st.rows st.deltaRows
        = .ok ⟨st.rows, st.deltaRows, [], [], [], []⟩ :=
      mergeGo_skip_all prio enabled full₂.reverse st.rows st.deltaRows hpresence₂
    rw [hrun₂, hm₂]
    refine ⟨hfresh, ?_, ?_, ?_, ?_⟩ <;> rfl
  · rw [writePriceDataW_err_eq oracle prio enabled w sheet deltaSheet
      cache data msg c ls henr] at h
    exact absurd h (by simp)
  · rw [writePriceDataW_panicked_eq oracle prio enabled w sheet deltaSheet
      cache data c ls henr] at h
    exact absurd h (by simp)

/-- C4: the exchange-rate lookup is a read-through cache.  A date already in
the cache is answered from the cache with no bank queries and no cache
change; a miss that resolves (possibly after walking back some days) stores
the resolved rate under the originally requested date, and a subsequent
lookup for that date is a pure cache hit returning the same value with no
bank queries. -/
theorem c4_rate_cache (oracle : BankOracle) (cache : Cache) (date : ℤ) :
    (∀ r, cacheLookup cache date = some r →
      getShekelConversionRatio oracle cache date = (.ok r, cache, []))
    ∧ (∀ r cache' probes, cacheLookup cache date = none →
        getShekelConversionRatio oracle cache date = (.ok r, cache', probes) →
        cache' = (date, r) :: cache
        ∧ getShekelConversionRatio oracle cache' date = (.ok r, cache', [])) := by
  constructor
  · exact fun r h => getShekelConversionRatio_hit oracle cache date r h
  · intro r cache' probes hmiss hcall
    have hcc : cache' = (date, r) :: cache := by
      unfold getShekelConversionRatio at hcall
      rw [hmiss] at hcall
      rcases hb : getFromIsraelBank oracle date 20 with ⟨res, probes₀⟩
      rw [hb] at hcall
      rcases res with r₁ | msg | _
      · simp only [Prod.mk.injEq, RateResult.ok.injEq] at hcall
        rcases hcall with ⟨h1, h2, h3⟩
        rw [← h2, h1]
      · simp at hcall
      · simp at hcall
    refine ⟨hcc, ?_⟩
    apply getShekelConversionRatio_hit
    rw [hcc]
    simp [cacheLookup]

/-- A bank oracle with a two-day gap before the requested date: only the day
two before the epoch has a published rate. -/
def gapOracle : BankOracle := fun d => if d = -2 then .rate 3 else .unavailable

theorem c4_rate_cache_witness :
    getShekelConversionRatio gapOracle [((0 : ℤ), (3 : ℚ))] 0
      = (.ok 3, [((0 : ℤ), (3 : ℚ))], []) := by
  have h := (c4_rate_cache gapOracle [] 0).2 3 [((0 : ℤ), (3 : ℚ))]
    [0, -1, -2] (by decide) (by decide)
  exact h.2

/-- C5 counterexample: a 200 response whose parsed rate is zero is returned
as-is.  With a source answering rate 0 for every date, the lookup for day 5
with the full budget of 20 queries only day 5 (no walk to the previous day)
and returns `ok 0` — the zero is returned silently, where the claim states a
zero rate triggers recursion on the previous calendar day and that zero is
never returned. -/
theorem c5_counterexample :
    getFromIsraelBank (fun _ => .rate 0) 5 20 = (.ok 0, [5]) := by
  decide

/-- C5 (amended): the lookup recurses on the previous calendar day with a
decremented budget only when the source is UNAVAILABLE for the queried date
(nil response or non-success status); a success response's parsed rate —
zero included — is returned as-is.  If every day within the budget is
unavailable the lookup panics; if day `date - k` is the first available day
within the budget, the lookup returns its rate after querying exactly
`date, date - 1, …, date - k`. -/
theorem c5_retry_amended (oracle : BankOracle) (date : ℤ) (n : ℕ) :
    ((∀ k : ℕ, k < n → oracle (date - k) = .unavailable) →
      (getFromIsraelBank oracle date n).1 = .panic)
    ∧ (∀ (k : ℕ) (v : ℚ), k < n →
        (∀ j : ℕ, j < k → oracle (date - j) = .unavailable) →
        oracle (date - k) = .rate v →
        getFromIsraelBank oracle date n = (.ok v, probeDates date k)) := by
  exact ⟨fun h => (getFromIsraelBank_panic_iff oracle n date).mpr h,
    fun k v hk hmiss hhit =>
      getFromIsraelBank_ok_of_first_hit oracle k n date v hk hmiss hhit⟩

theorem c5_retry_amended_witness :
    getFromIsraelBank gapOracle 0 20 = (.ok 3, probeDates 0 2) := by
  apply (c5_retry_amended gapOracle 0 20).2 2 3 (by decide)
  · intro j hj
    interval_cases j <;> decide
  · decide

/-- C6: the rate-lookup budget is fixed at 20 where `getShekelConversionRatio`
calls the bank, and on a cache miss the lookup ends in the Go `panic` exactly
when all 20 backward days are unavailable — exhaustion is never surfaced as
an ordinary error value (the live error path, a body-read failure on a 200
response, presupposes an available day and so can never coincide with
exhaustion, as the iff shows). -/
theorem c6_retry_budget_panic (oracle : BankOracle) (cache : Cache) (d : ℤ) :
    (getShekelConversionRatio oracle cache d).1 = .panic
      ↔ (cacheLookup cache d = none
          ∧ ∀ k : ℕ, k < 20 → oracle (d - k) = .unavailable) := by
  constructor
  · intro h
    rcases hc : cacheLookup cache d with _ | r
    · refine ⟨rfl, ?_⟩
      apply (getFromIsraelBank_panic_iff oracle 20 d).mp
      unfold getShekelConversionRatio at h
      rw [hc] at h
      rcases hb : getFromIsraelBank oracle d 20 with ⟨res, probes⟩
      rw [hb] at h
      rcases res with r₁ | msg | _
      · simp at h
      · simp at h
      · rfl
    · unfold getShekelConversionRatio at h
      rw [hc] at h
      simp at h
  · rintro ⟨hnone, hall⟩
    unfold getShekelConversionRatio
    rw [hnone]
    have hp : (getFromIsraelBank oracle d 20).1 = .panic :=
      (getFromIsraelBank_panic_iff oracle 20 d).mpr hall
    rcases hb : getFromIsraelBank oracle d 20 with ⟨res, probes⟩
    rw [hb] at hp
    rcases res with r₁ | msg | _
    · simp at hp
    · simp at hp
    · rfl

theorem c6_retry_budget_panic_witness :
    (getShekelConversionRatio (fun _ => .unavailable) [] 0).1 = .panic := by
  exact (c6_retry_budget_panic (fun _ => .unavailable) [] 0).mpr
    ⟨rfl, fun k hk => rfl⟩

/-- C7: a fetched series with fewer points than `AverageDays` makes
`getPriceData` return the data error, and `processCurrency` then returns that
error before `writePriceData` is ever reached: both report sheets and the
rate cache are exactly as they were. -/
theorem c7_short_series_error (oracle : BankOracle) (prio : PriorityOracle)
    (enabled : Bool) (sheet deltaSheet : Option (List Row)) (cache : Cache)
    (fetched : List HistoricPriceData) (h : fetched.length < AverageDays) :
    getPriceData fetched
      = .error ("Not enough data points: " ++ toString fetched.length)
    ∧ processCurrency oracle prio enabled sheet deltaSheet cache fetched
      = .err ("Not enough data points: " ++ toString fetched.length)
          (sheet, deltaSheet, cache) := by
  have hg : getPriceData fetched
      = .error ("Not enough data points: " ++ toString fetched.length) := by
    unfold getPriceData
    rw [if_pos h]
  refine ⟨hg, ?_⟩
  unfold processCurrency
  rw [hg]

theorem c7_short_series_error_witness :
    processCurrency constOracle okPriority false none none [] []
      = .err ("Not enough data points: "
          ++ toString ([] : List HistoricPriceData).length) (none, none, []) :=
  (c7_short_series_error constOracle okPriority false none none [] []
    (by decide)).2

/-- A Priority oracle whose POST always fails at transport level
(`client.Do` returns a non-nil error). -/
def downPriority : PriorityOracle := fun _ _ => .transportError

/-- C8 counterexample: with forwarding enabled and a transport-failing
Priority endpoint, merging a single new record reaches `log.Fatal` inside
`performImportToPriority`: the run terminates (fatal), the row is NOT
appended and the merge does not continue — where the claim states a
forwarding failure is logged only, never aborts, and the row is still
appended. -/
theorem c8_counterexample :
    (writePriceData constOracle downPriority true (some [headerRow])
        (some [headerRow]) [] [sampleDay 5 1]).kind = Kind.fatal
    ∧ (writePriceData constOracle downPriority true (some [headerRow])
        (some [headerRow]) [] [sampleDay 5 1]).state.appended = [] := by
  exact ⟨by decide, by decide⟩

/-- A Priority oracle whose non-201 responses decode to a `FORM` object
without an `InterfaceErrors` object. -/
def panicPriority : PriorityOracle := fun _ _ => .status 500 .formWithoutErrors

/-- C8 (amended): a forwarding call that completes with a 201, or with a
non-201 response whose body the logging branch can print (its `FORM` field
is not an object, or `FORM.InterfaceErrors` is an object), is logged only
and never changes what the merge persists: with such a Priority endpoint the
run has the same outcome kind, sheets and appended rows as a run with
forwarding disabled.  A transport-level forwarding failure terminates the
process at that row via `log.Fatal`; a non-201 response whose decoded `FORM`
is an object without an `InterfaceErrors` object panics on the logging
branch's unchecked type assertion — in both cases the row is not appended
and the merge does not continue.  The append to the persisted report itself
has no failure path (`AddData` always returns nil), so the merge loop can
never surface an error. -/
theorem c8_forwarding_amended :
    (∀ (oracle : BankOracle) (prio : PriorityOracle),
      (∀ q d, performImportToPriority prio q d ≠ .fatalTransport
        ∧ performImportToPriority prio q d ≠ .panicked) →
      ∀ (w : ℕ) (sheet deltaSheet : Option (List Row)) (cache : Cache)
        (data : List HistoricPriceData),
        (writePriceDataW oracle prio true w sheet deltaSheet cache data).kind
          = (writePriceDataW oracle prio false w sheet deltaSheet cache
              data).kind
        ∧ (writePriceDataW oracle prio true w sheet deltaSheet cache
            data).state.rows
          = (writePriceDataW oracle prio false w sheet deltaSheet cache
              data).state.rows
        ∧ (writePriceDataW oracle prio true w sheet deltaSheet cache
            data).state.deltaRows
          = (writePriceDataW oracle prio false w sheet deltaSheet cache
              data).state.deltaRows
        ∧ (writePriceDataW oracle prio true w sheet deltaSheet cache
            data).state.appended
          = (writePriceDataW oracle prio false w sheet deltaSheet cache
              data).state.appended)
    ∧ (∀ (prio : PriorityOracle) (r : FullHistoricPriceData)
        (rest : List FullHistoricPriceData) (rows deltaRows : List Row),
        performImportToPriority prio (priorityPayload r) r.priceData.date
          = .fatalTransport →
        existsDate rows r.priceData.date = false →
        mergeGo prio true (r :: rest) rows deltaRows
          = .fatal ⟨rows, deltaRows, [], [], [],
              [(priorityPayload r, r.priceData.date)]⟩)
    ∧ (∀ (prio : PriorityOracle) (r : FullHistoricPriceData)
        (rest : List FullHistoricPriceData) (rows deltaRows : List Row),
        performImportToPriority prio (priorityPayload r) r.priceData.date
          = .panicked →
        existsDate rows r.priceData.date = false →
        mergeGo prio true (r :: rest) rows deltaRows
          = .panicked ⟨rows, deltaRows, [], [], [],
              [(priorityPayload r, r.priceData.date)]⟩)
    ∧ (∀ (prio : PriorityOracle) (enabled : Bool)
        (l : List FullHistoricPriceData) (rows deltaRows : List Row),
        (mergeGo prio enabled l rows deltaRows).kind ≠ Kind.err) := by
  refine ⟨?_, ?_, ?_, ?_⟩
  · intro oracle prio hprio w sheet deltaSheet cache data
    rcases henr : enrichGo oracle w data.reverse [] 0 cache
        with ⟨full, c, ls⟩ | ⟨msg, c, ls⟩ | ⟨c, ls⟩
    · rw [writePriceDataW_ok_eq oracle prio true w sheet deltaSheet cache
        data full c ls henr,
        writePriceDataW_ok_eq oracle prio false w sheet deltaSheet cache
        data full c ls henr]
      rcases mergeGo_forwarding_harmless prio hprio full.reverse
          (AddCurrency sheet) (AddCurrency deltaSheet)
        with ⟨hkind, hrows, hdelta, happ, -⟩
      rw [PipeResult.kind_mapState, PipeResult.kind_mapState,
        PipeResult.state_mapState, PipeResult.state_mapState]
      exact ⟨hkind, by simp [mergeToWPD, hrows], by simp [mergeToWPD, hdelta],
        by simp [mergeToWPD, happ]⟩
    · rw [writePriceDataW_err_eq oracle prio true w sheet deltaSheet cache
        data msg c ls henr,
        writePriceDataW_err_eq oracle prio false w sheet deltaSheet cache
        data msg c ls henr]
      exact ⟨rfl, rfl, rfl, rfl⟩
    · rw [writePriceDataW_panicked_eq oracle prio true w sheet deltaSheet
        cache data c ls henr,
        writePriceDataW_panicked_eq oracle prio false w sheet deltaSheet
        cache data c ls henr]
      exact ⟨rfl, rfl, rfl, rfl⟩
  · intro prio r rest rows deltaRows hT hex
    have hf : (true : Bool) ∧ performImportToPriority prio (priorityPayload r)
        r.priceData.date = .fatalTransport := ⟨rfl, hT⟩
    have := mergeGo_cons_fatal prio true r rest rows deltaRows hex hf
    simpa using this
  · intro prio r rest rows deltaRows hT hex
    have hfn : ¬((true : Bool) ∧ performImportToPriority prio
        (priorityPayload r) r.priceData.date = .fatalTransport) := by
      rintro ⟨-, hcontra⟩
      rw [hT] at hcontra
      exact absurd hcontra (by simp)
    have hp : (true : Bool) ∧ performImportToPriority prio (priorityPayload r)
        r.priceData.date = .panicked := ⟨rfl, hT⟩
    have := mergeGo_cons_panic prio true r rest rows deltaRows hex hfn hp
    simpa using this
  · intro prio enabled l rows deltaRows
    rcases mergeGo_kind prio enabled l rows deltaRows with h | h | h <;> simp [h]

theorem c8_forwarding_amended_witness :
    ((writePriceData constOracle okPriority true (some existingRows)
        (some [headerRow]) [] batchSeries).state.appended
      = (writePriceData constOracle okPriority false (some existingRows)
          (some [headerRow]) [] batchSeries).state.appended)
    ∧ mergeGo downPriority true [⟨sampleDay 5 1, 0, 1⟩] [headerRow] [headerRow]
        = .fatal ⟨[headerRow], [headerRow], [], [], [],
            [(priorityPayload ⟨sampleDay 5 1, 0, 1⟩, 5)]⟩
    ∧ mergeGo panicPriority true [⟨sampleDay 5 1, 0, 1⟩] [headerRow] [headerRow]
        = .panicked ⟨[headerRow], [headerRow], [], [], [],
            [(priorityPayload ⟨sampleDay 5 1, 0, 1⟩, 5)]⟩ := by
  refine ⟨?_, ?_, ?_⟩
  · exact (c8_forwarding_amended.1 constOracle okPriority
      (fun q d => by simp [performImportToPriority, okPriority]) AverageDays
      (some existingRows) (some [headerRow]) [] batchSeries).2.2.2
  · exact c8_forwarding_amended.2.1 downPriority ⟨sampleDay 5 1, 0, 1⟩ []
      [headerRow] [headerRow] rfl (by decide)
  · exact c8_forwarding_amended.2.2.1 panicPriority ⟨sampleDay 5 1, 0, 1⟩ []
      [headerRow] [headerRow] (by decide) (by decide)

/-- C9: the delta sheet mirrors the primary.  Every merge appends exactly the
same rows, in the same order, to the delta sheet as to the primary sheet
(each record appended to the primary is immediately also appended to the
delta), while duplicate detection consults only the primary sheet's rows:
the delta sheet's prior content has no effect on the outcome kind, the
primary sheet, or the appended rows. -/
theorem c9_delta_mirror :
    (∀ (oracle : BankOracle) (prio : PriorityOracle) (enabled : Bool) (w : ℕ)
      (sheet deltaSheet : Option (List Row)) (cache : Cache)
      (data : List HistoricPriceData),
      (writePriceDataW oracle prio enabled w sheet deltaSheet cache
          data).state.deltaAppended
        = (writePriceDataW oracle prio enabled w sheet deltaSheet cache
            data).state.appended
      ∧ (writePriceDataW oracle prio enabled w sheet deltaSheet cache
          data).state.deltaRows
        = AddCurrency deltaSheet
            ++ (writePriceDataW oracle prio enabled w sheet deltaSheet cache
                data).state.appended)
    ∧ (∀ (oracle : BankOracle) (prio : PriorityOracle) (enabled : Bool) (w : ℕ)
      (sheet : Option (List Row)) (d₁ d₂ : Option (List Row)) (cache : Cache)
      (data : List HistoricPriceData),
      (writePriceDataW oracle prio enabled w sheet d₁ cache data).kind
        = (writePriceDataW oracle prio enabled w sheet d₂ cache data).kind
      ∧ (writePriceDataW oracle prio enabled w sheet d₁ cache data).state.rows
        = (writePriceDataW oracle prio enabled w sheet d₂ cache data).state.rows
      ∧ (writePriceDataW oracle prio enabled w sheet d₁ cache
          data).state.appended
        = (writePriceDataW oracle prio enabled w sheet d₂ cache
            data).state.appended) := by
  constructor
  · intro oracle prio enabled w sheet deltaSheet cache data
    rcases henr : enrichGo oracle w data.reverse [] 0 cache
        with ⟨full, c, ls⟩ | ⟨msg, c, ls⟩ | ⟨c, ls⟩
    · rw [writePriceDataW_ok_eq oracle prio enabled w sheet deltaSheet cache
        data full c ls henr]
      rw [PipeResult.state_mapState]
      have h1 := mergeGo_deltaAppended_eq prio enabled full.reverse
        (AddCurrency sheet) (AddCurrency deltaSheet)
      have h2 := mergeGo_deltaRows_eq prio enabled full.reverse
        (AddCurrency sheet) (AddCurrency deltaSheet)
      exact ⟨by simp [mergeToWPD, h1], by simp [mergeToWPD, h2, h1]⟩
    · rw [writePriceDataW_err_eq oracle prio enabled w sheet deltaSheet
        cache data msg c ls henr]
      simp [PipeResult.state]
    · rw [writePriceDataW_panicked_eq oracle prio enabled w sheet deltaSheet
        cache data c ls henr]
      simp [PipeResult.state]
  · intro oracle prio enabled w sheet d₁ d₂ cache data
    rcases henr : enrichGo oracle w data.reverse [] 0 cache
        with ⟨full, c, ls⟩ | ⟨msg, c, ls⟩ | ⟨c, ls⟩
    · rw [writePriceDataW_ok_eq oracle prio enabled w sheet d₁ cache
        data full c ls henr,
        writePriceDataW_ok_eq oracle prio enabled w sheet d₂ cache
        data full c ls henr]
      rcases mergeGo_delta_indep prio enabled full.reverse (AddCurrency sheet)
          (AddCurrency d₁) (AddCurrency d₂) with ⟨hkind, hrows, happ, -, -⟩
      rw [PipeResult.kind_mapState, PipeResult.kind_mapState,
        PipeResult.state_mapState, PipeResult.state_mapState]
      exact ⟨hkind, by simp [mergeToWPD, hrows], by simp [mergeToWPD, happ]⟩
    · rw [writePriceDataW_err_eq oracle prio enabled w sheet d₁ cache
        data msg c ls henr,
        writePriceDataW_err_eq oracle prio enabled w sheet d₂ cache
        data msg c ls henr]
      exact ⟨rfl, rfl, rfl⟩
    · rw [writePriceDataW_panicked_eq oracle prio enabled w sheet d₁ cache
        data c ls henr,
        writePriceDataW_panicked_eq oracle prio enabled w sheet d₂ cache
        data c ls henr]
      exact ⟨rfl, rfl, rfl⟩

theorem enrichGo_lookups_take (oracle : BankOracle) (w : ℕ) :
    ∀ (l : List HistoricPriceData) (ma : List ℚ) (j : ℕ) (cache : Cache),
      (enrichGo oracle w l ma j cache).lookupsOut
        = (l.map (fun e => e.date)).take
            (enrichGo oracle w l ma j cache).lookupsOut.length := by
  intro l
  induction l with
  | nil =>
    intro ma j cache
    rfl
  | cons e rest ih =>
    intro ma j cache
    rcases hsr : getShekelConversionRatio oracle cache e.date
        with ⟨res, cache', probes⟩
    rcases res with r | msg | _
    · rw [enrichGo_cons_ok oracle w e rest ma j cache cache' r probes hsr]
      rw [EnrichOut.lookupsOut_consOut]
      simp only [List.map_cons, List.length_cons, List.take_succ_cons]
      rw [← ih (if e.close > 0 then maAdd w ma e.close else ma)
        (if e.close > 0 then j + 1 else j) cache']
    · rw [enrichGo_cons_err oracle w e rest ma j cache cache' msg probes hsr]
      simp [EnrichOut.lookupsOut]
    · rw [enrichGo_cons_panic oracle w e rest ma j cache cache' probes hsr]
      simp [EnrichOut.lookupsOut]

/-- C10: the enrichment pass of `writePriceData` invokes
`getShekelConversionRatio` exactly once per fetched day, in processing
(oldest-to-newest) order — including days whose rows are already in the
report and the look-back seed days — and all of it happens before any
duplicate detection or append.  Concretely: whenever the merge phase is
reached (a run ending ok or fatal), the lookup trace is exactly the fetched
series' dates; the trace is always an in-order, once-per-day prefix of those
dates (a mid-pass rate-lookup error or panic truncates it at the failing
day); and a rate-lookup abort — the ordinary read error or the fatal retry
exhaustion — leaves the run with nothing appended and both sheets untouched,
even if every row of the batch would have been skipped as a duplicate. -/
theorem c10_lookup_per_day :
    (∀ (oracle : BankOracle) (prio : PriorityOracle) (enabled : Bool) (w : ℕ)
      (sheet deltaSheet : Option (List Row)) (cache : Cache)
      (data : List HistoricPriceData),
      ((writePriceDataW oracle prio enabled w sheet deltaSheet cache data).kind
          = Kind.ok
        ∨ (writePriceDataW oracle prio enabled w sheet deltaSheet cache
            data).kind = Kind.fatal) →
        (writePriceDataW oracle prio enabled w sheet deltaSheet cache
            data).state.lookups
          = data.reverse.map (fun e => e.date))
    ∧ (∀ (oracle : BankOracle) (prio : PriorityOracle) (enabled : Bool) (w : ℕ)
      (sheet deltaSheet : Option (List Row)) (cache : Cache)
      (data : List HistoricPriceData),
      (writePriceDataW oracle prio enabled w sheet deltaSheet cache
          data).state.lookups
        = (data.reverse.map (fun e => e.date)).take
            (writePriceDataW oracle prio enabled w sheet deltaSheet cache
              data).state.lookups.length)
    ∧ (∀ (oracle : BankOracle) (prio : PriorityOracle) (enabled : Bool) (w : ℕ)
      (sheet deltaSheet : Option (List Row)) (cache : Cache)
      (data : List HistoricPriceData) (c : Cache) (ls : List ℤ),
      (enrichGo oracle w data.reverse [] 0 cache = .panicked c ls
        ∨ ∃ msg, enrichGo oracle w data.reverse [] 0 cache = .errOut msg c ls) →
      (writePriceDataW oracle prio enabled w sheet deltaSheet cache
          data).state.appended = []
      ∧ (writePriceDataW oracle prio enabled w sheet deltaSheet cache
          data).state.rows = AddCurrency sheet
      ∧ (writePriceDataW oracle prio enabled w sheet deltaSheet cache
          data).state.deltaRows = AddCurrency deltaSheet) := by
  refine ⟨?_, ?_, ?_⟩
  · intro oracle prio enabled w sheet deltaSheet cache data hk
    rcases henr : enrichGo oracle w data.reverse [] 0 cache
        with ⟨full, c, ls⟩ | ⟨msg, c, ls⟩ | ⟨c, ls⟩
    · rw [writePriceDataW_ok_eq oracle prio enabled w sheet deltaSheet cache
        data full c ls henr]
      rw [PipeResult.state_mapState]
      have hls := (enrichGo_ok_shape oracle w data.reverse [] 0 cache
        full c ls henr).2
      simp [mergeToWPD, hls]
    · rw [writePriceDataW_err_eq oracle prio enabled w sheet deltaSheet
        cache data msg c ls henr] at hk
      simp [PipeResult.kind] at hk
    · rw [writePriceDataW_panicked_eq oracle prio enabled w sheet deltaSheet
        cache data c ls henr] at hk
      simp [PipeResult.kind] at hk
  · intro oracle prio enabled w sheet deltaSheet cache data
    have htake := enrichGo_lookups_take oracle w data.reverse [] 0 cache
    rcases henr : enrichGo oracle w data.reverse [] 0 cache
        with ⟨full, c, ls⟩ | ⟨msg, c, ls⟩ | ⟨c, ls⟩
    all_goals rw [henr] at htake
    · rw [writePriceDataW_ok_eq oracle prio enabled w sheet deltaSheet cache
        data full c ls henr]
      rw [PipeResult.state_mapState]
      simpa [mergeToWPD, EnrichOut.lookupsOut] using htake
    · rw [writePriceDataW_err_eq oracle prio enabled w sheet deltaSheet
        cache data msg c ls henr]
      simpa [PipeResult.state, EnrichOut.lookupsOut] using htake
    · rw [writePriceDataW_panicked_eq oracle prio enabled w sheet deltaSheet
        cache data c ls henr]
      simpa [PipeResult.state, EnrichOut.lookupsOut] using htake
  · intro oracle prio enabled w sheet deltaSheet cache data c ls habort
    rcases habort with habort | ⟨msg, habort⟩
    · rw [writePriceDataW_panicked_eq oracle prio enabled w sheet deltaSheet
        cache data c ls habort]
      exact ⟨rfl, rfl, rfl⟩
    · rw [writePriceDataW_err_eq oracle prio enabled w sheet deltaSheet
        cache data msg c ls habort]
      exact ⟨rfl, rfl, rfl⟩

theorem c10_lookup_per_day_witness :
    ((writePriceData constOracle okPriority false (some existingRows)
        (some [headerRow]) [] batchSeries).state.lookups
      = batchSeries.reverse.map (fun e => e.date))
    ∧ ((writePriceData (fun _ => .unavailable) okPriority false
        (some existingRows) (some [headerRow]) []
        [sampleDay 19725 1]).state.appended = []
      ∧ (writePriceData (fun _ => .unavailable) okPriority false
          (some existingRows) (some [headerRow]) []
          [sampleDay 19725 1]).state.rows
        = AddCurrency (some existingRows)) := by
  constructor
  · exact c10_lookup_per_day.1 constOracle okPriority false AverageDays
      (some existingRows) (some [headerRow]) [] batchSeries
      (Or.inl (by decide))
  · have h := c10_lookup_per_day.2.2 (fun _ => .unavailable) okPriority false
      AverageDays (some existingRows) (some [headerRow]) []
      [sampleDay 19725 1]
      ((enrichGo (fun _ => .unavailable) AverageDays
        [sampleDay 19725 1].reverse [] 0 []).cacheOut)
      ((enrichGo (fun _ => .unavailable) AverageDays
        [sampleDay 19725 1].reverse [] 0 []).lookupsOut)
      (Or.inl rfl)
    exact ⟨h.1, h.2.1⟩

theorem c3_merge_idempotent_witness :
    (writePriceData constOracle okPriority false
        (some (writePriceData constOracle okPriority false (some existingRows)
          (some [headerRow]) [] batchSeries).state.rows)
        (some (writePriceData constOracle okPriority false (some existingRows)
          (some [headerRow]) [] batchSeries).state.deltaRows)
        ((writePriceData constOracle okPriority false (some existingRows)
          (some [headerRow]) [] batchSeries).state.cache)
        batchSeries).state.appended = [] := by
  have h := c3_merge_idempotent constOracle okPriority false AverageDays
    (some existingRows) (some [headerRow]) [] batchSeries
    ((writePriceData constOracle okPriority false (some existingRows)
      (some [headerRow]) [] batchSeries).state) rfl
  exact h.2.2.1
